import Mathlib

/-!
# Verification of the Plaus7 concurrent scanning engine (Go scanner package)

Shallow embedding of the Go scanner core: the token-bucket rate limiter,
retry/backoff with circuit breaker, the DNS resolver's retry loop, the
HTTP prober's URL normalisation and title extraction, the crawler's
seen-set, and `ParallelMap`.

Modelling conventions:
* Go `float64` values (token counts, rates, backoff factors) are modelled
  as exact rationals `ℚ`; wall-clock instants and `time.Duration` values
  as rationals as well (an instant is a point on a rational time line).
* Go `int` is modelled as `ℤ` (no claim exercises 64-bit overflow).
* Each mutex-guarded method is modelled as one atomic state transition,
  which is exactly what the `mu.Lock()/defer mu.Unlock()` bracket around
  the whole method body guarantees in the source.
* `context.Context` cancellation is modelled by a boolean done-flag where
  a claim needs it; all claims below quantify over never-cancelled
  contexts.
-/

namespace Plaus7

/-! ## Token-bucket rate limiter (`utils.RateLimiter`)

State of the Go struct `RateLimiter { rate float64; burst int;
tokens float64; lastUpdate time.Time }`. -/

structure RateLimiter where
  rate : ℚ
  burst : ℤ
  tokens : ℚ
  lastUpdate : ℚ
deriving Repr, DecidableEq

/-- `NewRateLimiter(ratePerSecond, burst)`: non-positive rate falls back to
10, non-positive burst to `int(ratePerSecond)` (Go float-to-int truncation;
the sanitised rate is positive, so truncation is the floor). The bucket
starts full (`tokens = float64(burst)`) with `lastUpdate = time.Now()`,
here an arbitrary construction instant `now`. -/
def NewRateLimiter (ratePerSecond : ℚ) (burst : ℤ) (now : ℚ) : RateLimiter :=
  let r := if ratePerSecond ≤ 0 then 10 else ratePerSecond
  let b := if burst ≤ 0 then ⌊r⌋ else burst
  { rate := r, burst := b, tokens := (b : ℚ), lastUpdate := now }

/-- The lazy-refill prologue shared verbatim by `Allow`, `AllowN` and
`Reserve` in the source: `tokens += elapsed * rate`, clamped at
`float64(burst)`, and `lastUpdate = now`. -/
def RateLimiter.refill (rl : RateLimiter) (now : ℚ) : RateLimiter :=
  let elapsed := now - rl.lastUpdate
  let t := rl.tokens + elapsed * rl.rate
  let t := if t > (rl.burst : ℚ) then (rl.burst : ℚ) else t
  { rl with tokens := t, lastUpdate := now }

/-- `RateLimiter.Allow()` at instant `now`: refill, then debit one token
if `tokens >= 1`. Returns the decision and the poststate. -/
def RateLimiter.Allow (rl : RateLimiter) (now : ℚ) : Bool × RateLimiter :=
  let rl := rl.refill now
  if rl.tokens ≥ 1 then (true, { rl with tokens := rl.tokens - 1 })
  else (false, rl)

/-- `RateLimiter.AllowN(n)` at instant `now`: refill, then debit `n` tokens
if `tokens >= float64(n)`. -/
def RateLimiter.AllowN (rl : RateLimiter) (n : ℤ) (now : ℚ) : Bool × RateLimiter :=
  let rl := rl.refill now
  if rl.tokens ≥ (n : ℚ) then (true, { rl with tokens := rl.tokens - (n : ℚ) })
  else (false, rl)

/-- `RateLimiter.Reserve()` at instant `now`: refill, then either debit one
token (wait 0) or zero the bucket and return `(1 - tokens) / rate` seconds. -/
def RateLimiter.Reserve (rl : RateLimiter) (now : ℚ) : ℚ × RateLimiter :=
  let rl := rl.refill now
  if rl.tokens ≥ 1 then (0, { rl with tokens := rl.tokens - 1 })
  else ((1 - rl.tokens) / rl.rate, { rl with tokens := 0 })

/-- `RateLimiter.SetBurst(burst)`: set the new burst and clamp `tokens`
down to `float64(burst)` if it now exceeds it. -/
def RateLimiter.SetBurst (rl : RateLimiter) (burst : ℤ) : RateLimiter :=
  let rl1 : RateLimiter := { rl with burst := burst }
  if rl1.tokens > (burst : ℚ) then { rl1 with tokens := (burst : ℚ) } else rl1

/-- One call in a client history: each token-consuming call carries the
instant at which it happens. -/
inductive RLOp where
  | allow (now : ℚ)
  | allowN (n : ℤ) (now : ℚ)
  | reserve (now : ℚ)
  | setBurst (b : ℤ)
deriving Repr, DecidableEq

/-- The instant at which an operation reads the clock, if it does. -/
def RLOp.time? : RLOp → Option ℚ
  | .allow now => some now
  | .allowN _ now => some now
  | .reserve now => some now
  | .setBurst _ => none

/-- Apply one call to the limiter state. -/
def RateLimiter.step (rl : RateLimiter) : RLOp → RateLimiter
  | .allow now => (rl.Allow now).2
  | .allowN n now => (rl.AllowN n now).2
  | .reserve now => (rl.Reserve now).2
  | .setBurst b => rl.SetBurst b

/-- Apply a whole call history. -/
def RateLimiter.run (rl : RateLimiter) (ops : List RLOp) : RateLimiter :=
  ops.foldl RateLimiter.step rl

/-- A history is time-monotone when every clocked call happens no earlier
than the limiter's `lastUpdate` at that point (Go's monotonic clock
guarantees this for real executions). -/
def RateLimiter.timeOk (rl : RateLimiter) : List RLOp → Bool
  | [] => true
  | op :: ops =>
    (match op.time? with
     | some t => decide (rl.lastUpdate ≤ t)
     | none => true) && (rl.step op).timeOk ops

/-- Calls with non-negative arguments: `AllowN` with `n ≥ 0`, `SetBurst`
with `burst ≥ 0`, and any `Allow`/`Reserve`. -/
def RLOp.nonneg : RLOp → Bool
  | .allowN n _ => decide (0 ≤ n)
  | .setBurst b => decide (0 ≤ b)
  | _ => true

/-- The spec's claimed state invariant: `0 ≤ tokens ≤ burst`. -/
def RateLimiter.Inv (rl : RateLimiter) : Prop :=
  0 ≤ rl.tokens ∧ rl.tokens ≤ (rl.burst : ℚ)

instance (rl : RateLimiter) : Decidable rl.Inv := by
  unfold RateLimiter.Inv; infer_instance

/-- `k` consecutive `Allow` calls, all at the single instant `now`;
returns how many of them said `true`, with the final state. -/
def RateLimiter.allowCount (rl : RateLimiter) (now : ℚ) : Nat → Nat × RateLimiter
  | 0 => (0, rl)
  | k + 1 =>
    let p := rl.Allow now
    let q := p.2.allowCount now k
    ((if p.1 then 1 else 0) + q.1, q.2)

theorem RateLimiter.refill_burst (rl : RateLimiter) (now : ℚ) :
    (rl.refill now).burst = rl.burst := rfl

theorem RateLimiter.refill_rate (rl : RateLimiter) (now : ℚ) :
    (rl.refill now).rate = rl.rate := rfl

theorem RateLimiter.refill_lastUpdate (rl : RateLimiter) (now : ℚ) :
    (rl.refill now).lastUpdate = now := rfl

theorem RateLimiter.refill_inv (rl : RateLimiter) (now : ℚ)
    (hInv : rl.Inv) (ht : rl.lastUpdate ≤ now) (hr : 0 ≤ rl.rate) :
    (rl.refill now).Inv := by
  obtain ⟨h0, hb⟩ := hInv
  unfold RateLimiter.refill RateLimiter.Inv
  dsimp only
  split_ifs with h
  · exact ⟨le_trans h0 hb, le_refl _⟩
  · refine ⟨?_, ?_⟩
    · have : 0 ≤ (now - rl.lastUpdate) * rl.rate :=
        mul_nonneg (by linarith) hr
      linarith
    · linarith [not_lt.mp h]

theorem RateLimiter.refill_self (rl : RateLimiter) (now : ℚ)
    (hInv : rl.Inv) (h : rl.lastUpdate = now) : rl.refill now = rl := by
  obtain ⟨h0, hb⟩ := hInv
  subst h
  unfold RateLimiter.refill
  dsimp only
  rw [sub_self, zero_mul, add_zero, if_neg (not_lt.mpr hb)]

theorem RateLimiter.Allow_inv (rl : RateLimiter) (now : ℚ)
    (hInv : rl.Inv) (hr : 0 ≤ rl.rate) (ht : rl.lastUpdate ≤ now) :
    (rl.Allow now).2.Inv := by
  have h1 := rl.refill_inv now hInv ht hr
  unfold RateLimiter.Allow
  dsimp only
  split_ifs with h
  · refine ⟨?_, ?_⟩
    · show (0 : ℚ) ≤ (rl.refill now).tokens - 1
      linarith
    · show (rl.refill now).tokens - 1 ≤ ((rl.refill now).burst : ℚ)
      have := h1.2
      linarith
  · exact h1

theorem RateLimiter.Allow_lastUpdate (rl : RateLimiter) (now : ℚ) :
    (rl.Allow now).2.lastUpdate = now := by
  unfold RateLimiter.Allow
  dsimp only
  split_ifs <;> rfl

theorem RateLimiter.step_rate (rl : RateLimiter) (op : RLOp) :
    (rl.step op).rate = rl.rate := by
  cases op with
  | allow now =>
    show (rl.Allow now).2.rate = rl.rate
    unfold RateLimiter.Allow; dsimp only; split_ifs <;> rfl
  | allowN n now =>
    show (rl.AllowN n now).2.rate = rl.rate
    unfold RateLimiter.AllowN; dsimp only; split_ifs <;> rfl
  | reserve now =>
    show (rl.Reserve now).2.rate = rl.rate
    unfold RateLimiter.Reserve; dsimp only; split_ifs <;> rfl
  | setBurst b =>
    show (rl.SetBurst b).rate = rl.rate
    unfold RateLimiter.SetBurst; dsimp only; split_ifs <;> rfl

theorem RateLimiter.step_inv (rl : RateLimiter) (op : RLOp)
    (hInv : rl.Inv) (hr : 0 ≤ rl.rate)
    (hn : op.nonneg = true)
    (ht : ∀ t, op.time? = some t → rl.lastUpdate ≤ t) :
    (rl.step op).Inv := by
  cases op with
  | allow now =>
    exact rl.Allow_inv now hInv hr (ht now rfl)
  | allowN n now =>
    have h1 := rl.refill_inv now hInv (ht now rfl) hr
    show (rl.AllowN n now).2.Inv
    unfold RateLimiter.AllowN
    dsimp only
    split_ifs with h
    · have hn0 : (0 : ℚ) ≤ (n : ℚ) := by
        have : (0 : ℤ) ≤ n := by simpa [RLOp.nonneg] using hn
        exact_mod_cast this
      refine ⟨?_, ?_⟩
      · show (0 : ℚ) ≤ (rl.refill now).tokens - (n : ℚ)
        linarith
      · show (rl.refill now).tokens - (n : ℚ) ≤ ((rl.refill now).burst : ℚ)
        have := h1.2
        linarith
    · exact h1
  | reserve now =>
    have h1 := rl.refill_inv now hInv (ht now rfl) hr
    show (rl.Reserve now).2.Inv
    unfold RateLimiter.Reserve
    dsimp only
    split_ifs with h
    · refine ⟨?_, ?_⟩
      · show (0 : ℚ) ≤ (rl.refill now).tokens - 1
        linarith
      · show (rl.refill now).tokens - 1 ≤ ((rl.refill now).burst : ℚ)
        have := h1.2
        linarith
    · refine ⟨le_refl 0, ?_⟩
      show (0 : ℚ) ≤ ((rl.refill now).burst : ℚ)
      have := h1.1
      have := h1.2
      linarith
  | setBurst b =>
    have hb0 : (0 : ℤ) ≤ b := by simpa [RLOp.nonneg] using hn
    have hb0Q : (0 : ℚ) ≤ (b : ℚ) := by exact_mod_cast hb0
    show (rl.SetBurst b).Inv
    unfold RateLimiter.SetBurst
    dsimp only
    split_ifs with h
    · exact ⟨hb0Q, le_refl _⟩
    · exact ⟨hInv.1, not_lt.mp h⟩

theorem RateLimiter.run_inv (ops : List RLOp) :
    ∀ rl : RateLimiter, rl.Inv → 0 ≤ rl.rate →
      ops.all RLOp.nonneg = true → rl.timeOk ops = true →
      (rl.run ops).Inv ∧ 0 ≤ (rl.run ops).rate := by
  induction ops with
  | nil => exact fun rl hInv hr _ _ => ⟨hInv, hr⟩
  | cons op ops ih =>
    intro rl hInv hr hall htime
    have hop : op.nonneg = true := by
      simpa using (List.all_eq_true.mp hall op (List.mem_cons_self op ops))
    have hrest : ops.all RLOp.nonneg = true := by
      rw [List.all_eq_true]
      intro x hx
      exact List.all_eq_true.mp hall x (List.mem_cons_of_mem op hx)
    unfold RateLimiter.timeOk at htime
    rw [Bool.and_eq_true] at htime
    have ht : ∀ t, op.time? = some t → rl.lastUpdate ≤ t := by
      intro t hEq
      have := htime.1
      rw [hEq] at this
      exact of_decide_eq_true this
    have hstep := rl.step_inv op hInv hr hop ht
    have hstepRate : 0 ≤ (rl.step op).rate := by
      rw [rl.step_rate op]; exact hr
    have := ih (rl.step op) hstep hstepRate hrest htime.2
    exact this

theorem NewRateLimiter_inv (ratePerSecond : ℚ) (burst : ℤ) (now : ℚ) :
    (NewRateLimiter ratePerSecond burst now).Inv ∧
    0 ≤ (NewRateLimiter ratePerSecond burst now).rate := by
  unfold NewRateLimiter
  dsimp only
  have hr : (0 : ℚ) < (if ratePerSecond ≤ 0 then 10 else ratePerSecond) := by
    split_ifs with h
    · norm_num
    · exact lt_of_not_le h
  refine ⟨⟨?_, le_refl _⟩, le_of_lt hr⟩
  show (0 : ℚ) ≤ ((if burst ≤ 0 then ⌊if ratePerSecond ≤ 0 then 10 else ratePerSecond⌋ else burst : ℤ) : ℚ)
  have : (0 : ℤ) ≤ (if burst ≤ 0 then ⌊if ratePerSecond ≤ 0 then 10 else ratePerSecond⌋ else burst) := by
    split_ifs with hb hrle
    · exact Int.floor_nonneg.mpr (by norm_num)
    · exact Int.floor_nonneg.mpr (le_of_lt (lt_of_not_le hrle))
    · exact le_of_lt (lt_of_not_le hb)
  exact_mod_cast this

theorem RateLimiter.Allow_of_ge (rl : RateLimiter) (now : ℚ)
    (h : (rl.refill now).tokens ≥ 1) :
    rl.Allow now = (true,
      { rate := (rl.refill now).rate, burst := (rl.refill now).burst,
        tokens := (rl.refill now).tokens - 1,
        lastUpdate := (rl.refill now).lastUpdate }) := by
  unfold RateLimiter.Allow
  dsimp only
  rw [if_pos h]

theorem RateLimiter.Allow_of_lt (rl : RateLimiter) (now : ℚ)
    (h : (rl.refill now).tokens < 1) :
    rl.Allow now = (false, rl.refill now) := by
  unfold RateLimiter.Allow
  dsimp only
  rw [if_neg (not_le.mpr h)]

theorem RateLimiter.allowCount_succ (rl : RateLimiter) (now : ℚ) (k : Nat) :
    rl.allowCount now (k + 1) =
      ((if (rl.Allow now).1 then 1 else 0) + ((rl.Allow now).2.allowCount now k).1,
        ((rl.Allow now).2.allowCount now k).2) := rfl

theorem RateLimiter.allowCount_le_tokens (now : ℚ) (k : Nat) :
    ∀ rl : RateLimiter, rl.Inv → rl.lastUpdate = now →
      (((rl.allowCount now k).1 : ℚ)) ≤ rl.tokens := by
  induction k with
  | zero =>
    intro rl hInv _
    simpa [RateLimiter.allowCount] using hInv.1
  | succ k ih =>
    intro rl hInv hLast
    have hself := rl.refill_self now hInv hLast
    rcases le_or_lt 1 rl.tokens with h | h
    · have hA := rl.Allow_of_ge now (by rw [hself]; exact h)
      rw [hself] at hA
      rw [rl.allowCount_succ now k, hA]
      have hInv1 : RateLimiter.Inv
          { rate := rl.rate, burst := rl.burst, tokens := rl.tokens - 1,
            lastUpdate := rl.lastUpdate } :=
        ⟨by dsimp only; linarith, by have := hInv.2; dsimp only; linarith⟩
      have hc := ih _ hInv1 hLast
      dsimp only at hc ⊢
      simp only [if_pos]
      push_cast
      linarith
    · have hA := rl.Allow_of_lt now (by rw [hself]; exact h)
      rw [hself] at hA
      rw [rl.allowCount_succ now k, hA]
      have hc := ih rl hInv hLast
      dsimp only
      simp only [Bool.false_eq_true, if_false]
      push_cast
      linarith

theorem RateLimiter.allowCount_le_burst (rl : RateLimiter) (now : ℚ) (k : Nat)
    (hInv : rl.Inv) (hr : 0 ≤ rl.rate) (ht : rl.lastUpdate ≤ now) :
    (((rl.allowCount now k).1 : ℤ)) ≤ rl.burst := by
  have hInvR := rl.refill_inv now hInv ht hr
  have hQ : (((rl.allowCount now k).1 : ℚ)) ≤ ((rl.burst : ℤ) : ℚ) := by
    cases k with
    | zero =>
      have h0 : (0 : ℚ) ≤ (rl.burst : ℚ) := le_trans hInv.1 hInv.2
      simpa [RateLimiter.allowCount] using h0
    | succ k =>
      have hbq : ((rl.refill now).burst : ℚ) = (rl.burst : ℚ) := by
        rw [rl.refill_burst now]
      rcases le_or_lt 1 (rl.refill now).tokens with h | h
      · have hA := rl.Allow_of_ge now h
        rw [rl.allowCount_succ now k, hA]
        have hInv1 : RateLimiter.Inv
            { rate := (rl.refill now).rate, burst := (rl.refill now).burst,
              tokens := (rl.refill now).tokens - 1,
              lastUpdate := (rl.refill now).lastUpdate } :=
          ⟨by dsimp only; linarith, by have := hInvR.2; dsimp only; linarith⟩
        have hc := allowCount_le_tokens now k _ hInv1 (rl.refill_lastUpdate now)
        dsimp only at hc ⊢
        simp only [if_pos]
        have hb := hInvR.2
        rw [← hbq]
        push_cast
        linarith
      · have hA := rl.Allow_of_lt now h
        rw [rl.allowCount_succ now k, hA]
        have hc := allowCount_le_tokens now k _ hInvR (rl.refill_lastUpdate now)
        have hzero : ((rl.refill now).allowCount now k).1 = 0 := by
          by_contra hne
          have hge : 1 ≤ ((rl.refill now).allowCount now k).1 :=
            Nat.one_le_iff_ne_zero.mpr hne
          have h1 : (1 : ℚ) ≤ (((rl.refill now).allowCount now k).1 : ℚ) := by
            exact_mod_cast hge
          linarith
        dsimp only
        simp only [Bool.false_eq_true, if_false, hzero]
        have hb := le_trans hInvR.1 hInvR.2
        rw [← hbq]
        push_cast
        linarith
  exact_mod_cast hQ

/-- **C1** (counterexample to the claim as stated). The claim quantifies
over *every* sequence of `Allow`/`AllowN`/`Reserve`/`SetBurst` calls, but
`SetBurst(-1)` on a freshly built limiter drives `tokens` to `-1 < 0`
(the clamp `tokens > float64(burst)` overwrites `tokens` with the negative
burst), and `AllowN(-1)` credits a token, driving `tokens` to `burst + 1 >
burst`. Both executions violate `0 ≤ tokens ≤ burst`. -/
theorem C1_counterexample :
    ¬ ((NewRateLimiter 10 5 0).run [RLOp.setBurst (-1)]).Inv ∧
    ¬ ((NewRateLimiter 10 5 0).run [RLOp.allowN (-1) 0]).Inv := by
  constructor <;>
    norm_num [NewRateLimiter, RateLimiter.run, RateLimiter.step, RateLimiter.SetBurst,
      RateLimiter.AllowN, RateLimiter.refill, RateLimiter.Inv, List.foldl]

/-- **C1** (amended). For every construction `NewRateLimiter(rate, burst)`
and every time-monotone call history made of `Allow`, `Reserve`, `AllowN`
with non-negative `n` and `SetBurst` with non-negative burst, the token
count satisfies `0 ≤ tokens ≤ burst` after every prefix of the history,
and a run of `Allow` calls all happening at one single instant returns
`true` at most `burst` times. -/
theorem C1_rate_limiter_invariant (ratePerSecond : ℚ) (burst : ℤ) (t0 : ℚ)
    (ops : List RLOp)
    (hops : ops.all RLOp.nonneg = true)
    (htime : (NewRateLimiter ratePerSecond burst t0).timeOk ops = true) :
    ((NewRateLimiter ratePerSecond burst t0).run ops).Inv ∧
    ∀ (now : ℚ) (k : Nat),
      ((NewRateLimiter ratePerSecond burst t0).run ops).lastUpdate ≤ now →
      (((((NewRateLimiter ratePerSecond burst t0).run ops).allowCount now k).1 : ℤ)) ≤
        ((NewRateLimiter ratePerSecond burst t0).run ops).burst := by
  obtain ⟨hInv0, hr0⟩ := NewRateLimiter_inv ratePerSecond burst t0
  obtain ⟨hInv, hr⟩ :=
    RateLimiter.run_inv ops (NewRateLimiter ratePerSecond burst t0) hInv0 hr0 hops htime
  exact ⟨hInv, fun now k hle =>
    RateLimiter.allowCount_le_burst _ now k hInv hr hle⟩

/-- Witness for C1: a concrete limiter (`rate = 10`, `burst = 5`, built at
time 0) run through `[Allow@1, AllowN(2)@2, Reserve@3, SetBurst(3)]`
satisfies the invariant, and seven `Allow` calls at instant 4 yield at
most `burst` grants. -/
theorem C1_rate_limiter_invariant_witness :
    ((NewRateLimiter 10 5 0).run
      [RLOp.allow 1, RLOp.allowN 2 2, RLOp.reserve 3, RLOp.setBurst 3]).Inv ∧
    (((((NewRateLimiter 10 5 0).run
      [RLOp.allow 1, RLOp.allowN 2 2, RLOp.reserve 3, RLOp.setBurst 3]).allowCount 4 7).1 : ℤ)) ≤
      ((NewRateLimiter 10 5 0).run
        [RLOp.allow 1, RLOp.allowN 2 2, RLOp.reserve 3, RLOp.setBurst 3]).burst := by
  have h := C1_rate_limiter_invariant 10 5 0
    [RLOp.allow 1, RLOp.allowN 2 2, RLOp.reserve 3, RLOp.setBurst 3]
    (by decide)
    (by norm_num [NewRateLimiter, RateLimiter.timeOk, RateLimiter.step, RateLimiter.Allow,
      RateLimiter.AllowN, RateLimiter.Reserve, RateLimiter.SetBurst, RateLimiter.refill,
      RLOp.time?])
  refine ⟨h.1, h.2 4 7 ?_⟩
  norm_num [NewRateLimiter, RateLimiter.run, RateLimiter.step, RateLimiter.Allow,
    RateLimiter.AllowN, RateLimiter.Reserve, RateLimiter.SetBurst, RateLimiter.refill,
    List.foldl]

/-! ## Retry with exponential backoff (`utils.RetryWithBackoff`) -/

/-- Go errors as this package builds them: plain errors, the context
cancellation error, and the `fmt.Errorf("max retries (%d) exceeded: %w",
config.MaxRetries, lastErr)` wrapper. -/
inductive GoError where
  | base (msg : String)
  | canceled
  | maxRetriesExceeded (count : ℤ) (inner : GoError)
deriving Repr, DecidableEq

/-- `errors.Is(e, t)`: equality or unwrapping through the `%w` chain. -/
def GoError.is (e t : GoError) : Bool :=
  e == t ||
    match e with
    | .maxRetriesExceeded _ inner => inner.is t
    | _ => false

/-- One nanosecond is the unit of `time.Duration`. -/
def timeMillisecond : ℚ := 1000000

def timeSecond : ℚ := 1000000000

/-- `RetryConfig` (durations in nanoseconds, factor exact). -/
structure RetryConfig where
  MaxRetries : ℤ
  InitialDelay : ℚ
  MaxDelay : ℚ
  BackoffFactor : ℚ
  Jitter : Bool
  RetryableErrors : List GoError
deriving Repr, DecidableEq

/-- The defaulting prologue of `RetryWithBackoff`: non-positive
`MaxRetries`, `InitialDelay`, `MaxDelay`, `BackoffFactor` are replaced by
3, 100ms, 10s, 2.0 respectively. -/
def RetryConfig.sanitize (c : RetryConfig) : RetryConfig :=
  let c := if c.MaxRetries ≤ 0 then { c with MaxRetries := 3 } else c
  let c := if c.InitialDelay ≤ 0 then { c with InitialDelay := 100 * timeMillisecond } else c
  let c := if c.MaxDelay ≤ 0 then { c with MaxDelay := 10 * timeSecond } else c
  let c := if c.BackoffFactor ≤ 0 then { c with BackoffFactor := 2 } else c
  c

/-- `isRetryable(err, retryableErrors)`: with an empty set every error is
retryable, otherwise membership via `errors.Is`. -/
def isRetryable (err : GoError) (retryableErrors : List GoError) : Bool :=
  if retryableErrors.length = 0 then true
  else retryableErrors.any fun retryableErr => err.is retryableErr

/-- The `for attempt := 0; attempt <= MaxRetries; attempt++` loop of
`RetryWithBackoff` after sanitisation. `fn i` is the outcome of the
`i`-th invocation of `fn` (`none` = success); `remaining = MaxRetries -
attempt` counts the attempts still allowed after the current one and
`delay` is the backoff-delay state (updated to
`min(MaxDelay, delay * BackoffFactor)` after each sleep; the sleep itself
and its random jitter do not influence control flow on a never-cancelled
context). Returns the final outcome and how many times `fn` was called. -/
def retryLoop (maxRetries : ℤ) (maxDelay factor : ℚ) (retryable : List GoError)
    (fn : Nat → Option GoError) : Nat → ℚ → Nat → Option GoError × Nat
  | i, delay, remaining =>
    match fn i with
    | none => (none, i + 1)
    | some err =>
      if isRetryable err retryable then
        match remaining with
        | 0 => (some (.maxRetriesExceeded maxRetries err), i + 1)
        | r + 1 =>
          let d := delay * factor
          let d := if d > maxDelay then maxDelay else d
          retryLoop maxRetries maxDelay factor retryable fn (i + 1) d r
      else (some err, i + 1)

/-- `RetryWithBackoff(ctx, config, fn)`. `ctxDone` says whether the
context is cancelled (constant: all claims quantify over never-cancelled
contexts, under which every pre-attempt check passes and every backoff
sleep completes). -/
def RetryWithBackoff (ctxDone : Bool) (config : RetryConfig)
    (fn : Nat → Option GoError) : Option GoError × Nat :=
  let c := config.sanitize
  if ctxDone then (some .canceled, 0)
  else retryLoop c.MaxRetries c.MaxDelay c.BackoffFactor c.RetryableErrors fn
    0 c.InitialDelay c.MaxRetries.toNat

theorem retryLoop_calls_le (maxRetries : ℤ) (maxDelay factor : ℚ)
    (retryable : List GoError) (fn : Nat → Option GoError) :
    ∀ (remaining i : Nat) (delay : ℚ),
      (retryLoop maxRetries maxDelay factor retryable fn i delay remaining).2 ≤
        i + remaining + 1 := by
  intro remaining
  induction remaining with
  | zero =>
    intro i delay
    unfold retryLoop
    cases h : fn i with
    | none => simp
    | some err =>
      dsimp only
      by_cases hret : isRetryable err retryable = true
      · rw [if_pos hret]
      · rw [if_neg hret]
  | succ r ih =>
    intro i delay
    unfold retryLoop
    cases h : fn i with
    | none =>
      show i + 1 ≤ i + (r + 1) + 1
      omega
    | some err =>
      dsimp only
      by_cases hret : isRetryable err retryable = true
      · rw [if_pos hret]
        exact le_trans (ih (i + 1) _) (by omega)
      · rw [if_neg hret]
        show i + 1 ≤ i + (r + 1) + 1
        omega

theorem retryLoop_always_fail (maxRetries : ℤ) (maxDelay factor : ℚ)
    (retryable : List GoError) (fn : Nat → Option GoError)
    (e : Nat → GoError)
    (hfail : ∀ i, fn i = some (e i))
    (hret : ∀ err, isRetryable err retryable = true) :
    ∀ (remaining i : Nat) (delay : ℚ),
      retryLoop maxRetries maxDelay factor retryable fn i delay remaining =
        (some (.maxRetriesExceeded maxRetries (e (i + remaining))), i + remaining + 1) := by
  intro remaining
  induction remaining with
  | zero =>
    intro i delay
    unfold retryLoop
    rw [hfail i]
    dsimp only
    rw [if_pos (hret (e i))]
    simp
  | succ r ih =>
    intro i delay
    unfold retryLoop
    rw [hfail i]
    dsimp only
    rw [if_pos (hret (e i))]
    rw [ih (i + 1)]
    have hidx : i + 1 + r = i + (r + 1) := by omega
    rw [hidx]

theorem isRetryable_empty (err : GoError) : isRetryable err [] = true := rfl

theorem RetryConfig.sanitize_retryableErrors (c : RetryConfig) :
    c.sanitize.RetryableErrors = c.RetryableErrors := by
  unfold RetryConfig.sanitize
  dsimp only
  split_ifs <;> rfl

theorem RetryConfig.sanitize_maxRetries (c : RetryConfig) :
    c.sanitize.MaxRetries = if c.MaxRetries ≤ 0 then 3 else c.MaxRetries := by
  unfold RetryConfig.sanitize
  dsimp only
  split_ifs <;> rfl

theorem RetryConfig.sanitize_initialDelay (c : RetryConfig) :
    c.sanitize.InitialDelay =
      if c.InitialDelay ≤ 0 then 100 * timeMillisecond else c.InitialDelay := by
  unfold RetryConfig.sanitize
  dsimp only
  split_ifs <;> rfl

theorem RetryConfig.sanitize_maxDelay (c : RetryConfig) :
    c.sanitize.MaxDelay =
      if c.MaxDelay ≤ 0 then 10 * timeSecond else c.MaxDelay := by
  unfold RetryConfig.sanitize
  dsimp only
  split_ifs <;> rfl

theorem RetryConfig.sanitize_backoffFactor (c : RetryConfig) :
    c.sanitize.BackoffFactor =
      if c.BackoffFactor ≤ 0 then 2 else c.BackoffFactor := by
  unfold RetryConfig.sanitize
  dsimp only
  split_ifs <;> rfl

theorem RetryWithBackoff_live (config : RetryConfig) (fn : Nat → Option GoError) :
    RetryWithBackoff false config fn =
      retryLoop config.sanitize.MaxRetries config.sanitize.MaxDelay
        config.sanitize.BackoffFactor config.sanitize.RetryableErrors fn
        0 config.sanitize.InitialDelay config.sanitize.MaxRetries.toNat := rfl

/-- **C2.** On a never-cancelled context, `RetryWithBackoff` calls `fn` at
most `MaxRetries + 1` times (for any config whose `MaxRetries` survives
defaulting, i.e. `MaxRetries ≥ 1`); and with `MaxRetries = 3`, an empty
retryable set and an always-failing `fn`, `fn` is called exactly 4 times
and the outcome is the wrapping error `max retries (3) exceeded: %w`
around the last failure. -/
theorem C2_retry_attempt_count :
    (∀ (config : RetryConfig) (fn : Nat → Option GoError),
      1 ≤ config.MaxRetries →
      (RetryWithBackoff false config fn).2 ≤ config.MaxRetries.toNat + 1) ∧
    (∀ (config : RetryConfig) (fn : Nat → Option GoError) (e : Nat → GoError),
      config.MaxRetries = 3 → config.RetryableErrors = [] →
      (∀ i, fn i = some (e i)) →
      RetryWithBackoff false config fn =
        (some (.maxRetriesExceeded 3 (e 3)), 4)) := by
  constructor
  · intro config fn hM
    rw [RetryWithBackoff_live]
    have hMR : config.sanitize.MaxRetries = config.MaxRetries := by
      rw [RetryConfig.sanitize_maxRetries, if_neg (by omega)]
    calc (retryLoop config.sanitize.MaxRetries config.sanitize.MaxDelay
          config.sanitize.BackoffFactor config.sanitize.RetryableErrors fn
          0 config.sanitize.InitialDelay config.sanitize.MaxRetries.toNat).2
        ≤ 0 + config.sanitize.MaxRetries.toNat + 1 :=
          retryLoop_calls_le _ _ _ _ _ _ _ _
      _ = config.MaxRetries.toNat + 1 := by rw [hMR]; omega
  · intro config fn e hM hEmpty hfail
    rw [RetryWithBackoff_live]
    have hMR : config.sanitize.MaxRetries = 3 := by
      rw [RetryConfig.sanitize_maxRetries, hM]
      norm_num
    have hRE : config.sanitize.RetryableErrors = [] := by
      rw [RetryConfig.sanitize_retryableErrors, hEmpty]
    rw [hMR, hRE]
    have h := retryLoop_always_fail 3 config.sanitize.MaxDelay
      config.sanitize.BackoffFactor [] fn e hfail
      (fun err => isRetryable_empty err) 3 0 config.sanitize.InitialDelay
    simpa using h

/-- Witness for C2: `MaxRetries = 3` with the default delays and an
always-failing function gives exactly 4 calls and the wrapped error. -/
theorem C2_retry_attempt_count_witness :
    RetryWithBackoff false
      ⟨3, 100 * timeMillisecond, 10 * timeSecond, 2, true, []⟩
      (fun _ => some (.base "boom")) =
      (some (.maxRetriesExceeded 3 (.base "boom")), 4) ∧
    (RetryWithBackoff false
      ⟨3, 100 * timeMillisecond, 10 * timeSecond, 2, true, []⟩
      (fun _ => some (.base "boom"))).2 ≤
      (3 : ℤ).toNat + 1 := by
  constructor
  · exact C2_retry_attempt_count.2
      ⟨3, 100 * timeMillisecond, 10 * timeSecond, 2, true, []⟩
      (fun _ => some (.base "boom")) (fun _ => .base "boom")
      rfl rfl (fun _ => rfl)
  · exact C2_retry_attempt_count.1
      ⟨3, 100 * timeMillisecond, 10 * timeSecond, 2, true, []⟩
      (fun _ => some (.base "boom")) (by norm_num)

/-- **C9.** If the configured retryable set is non-empty and the first
call's error matches none of its elements (via `errors.Is`),
`RetryWithBackoff` returns that error after exactly one call; with an
empty retryable set, every error counts as retryable. -/
theorem C9_nonretryable_stops_immediately :
    (∀ (config : RetryConfig) (fn : Nat → Option GoError) (err : GoError),
      config.RetryableErrors ≠ [] →
      fn 0 = some err →
      isRetryable err config.RetryableErrors = false →
      RetryWithBackoff false config fn = (some err, 1)) ∧
    (∀ err : GoError, isRetryable err [] = true) := by
  constructor
  · intro config fn err _ h0 hNR
    rw [RetryWithBackoff_live]
    have hRE : config.sanitize.RetryableErrors = config.RetryableErrors :=
      RetryConfig.sanitize_retryableErrors config
    unfold retryLoop
    rw [h0]
    dsimp only
    rw [hRE, if_neg (by rw [hNR]; simp)]
  · exact isRetryable_empty

/-- Witness for C9: an error outside a non-empty retryable set stops the
retry loop after one call. -/
theorem C9_nonretryable_stops_immediately_witness :
    RetryWithBackoff false
      ⟨3, 100 * timeMillisecond, 10 * timeSecond, 2, true, [.base "retry-me"]⟩
      (fun _ => some (.base "fatal")) = (some (.base "fatal"), 1) :=
  C9_nonretryable_stops_immediately.1
    ⟨3, 100 * timeMillisecond, 10 * timeSecond, 2, true, [.base "retry-me"]⟩
    (fun _ => some (.base "fatal")) (.base "fatal")
    (by simp) rfl (by decide)

/-- **C10.** Non-positive `MaxRetries`, `InitialDelay`, `MaxDelay` and
`BackoffFactor` are replaced by the defaults 3, 100ms, 10s and 2.0 before
the loop runs; in particular an always-failing function under
`MaxRetries ≤ 0` (e.g. the zero-value config) is invoked exactly 4
times. -/
theorem C10_default_substitution :
    (∀ config : RetryConfig, config.MaxRetries ≤ 0 →
      config.sanitize.MaxRetries = 3) ∧
    (∀ config : RetryConfig, config.InitialDelay ≤ 0 →
      config.sanitize.InitialDelay = 100 * timeMillisecond) ∧
    (∀ config : RetryConfig, config.MaxDelay ≤ 0 →
      config.sanitize.MaxDelay = 10 * timeSecond) ∧
    (∀ config : RetryConfig, config.BackoffFactor ≤ 0 →
      config.sanitize.BackoffFactor = 2) ∧
    (∀ (config : RetryConfig) (fn : Nat → Option GoError) (e : Nat → GoError),
      config.MaxRetries ≤ 0 → config.RetryableErrors = [] →
      (∀ i, fn i = some (e i)) →
      (RetryWithBackoff false config fn).2 = 4) := by
  refine ⟨?_, ?_, ?_, ?_, ?_⟩
  · intro config h
    rw [RetryConfig.sanitize_maxRetries, if_pos h]
  · intro config h
    rw [RetryConfig.sanitize_initialDelay, if_pos h]
  · intro config h
    rw [RetryConfig.sanitize_maxDelay, if_pos h]
  · intro config h
    rw [RetryConfig.sanitize_backoffFactor, if_pos h]
  · intro config fn e hM hEmpty hfail
    rw [RetryWithBackoff_live]
    have hMR : config.sanitize.MaxRetries = 3 := by
      rw [RetryConfig.sanitize_maxRetries, if_pos hM]
    have hRE : config.sanitize.RetryableErrors = [] := by
      rw [RetryConfig.sanitize_retryableErrors, hEmpty]
    rw [hMR, hRE]
    have h := retryLoop_always_fail 3 config.sanitize.MaxDelay
      config.sanitize.BackoffFactor [] fn e hfail
      (fun err => isRetryable_empty err) 3 0 config.sanitize.InitialDelay
    have h3 : (3 : ℤ).toNat = 3 := rfl
    rw [h3, h]

/-- Witness for C10: the zero-value config takes all four defaults and an
always-failing function is still called 4 times. -/
theorem C10_default_substitution_witness :
    (RetryConfig.sanitize ⟨0, 0, 0, 0, false, []⟩).MaxRetries = 3 ∧
    (RetryConfig.sanitize ⟨0, 0, 0, 0, false, []⟩).InitialDelay = 100 * timeMillisecond ∧
    (RetryConfig.sanitize ⟨0, 0, 0, 0, false, []⟩).MaxDelay = 10 * timeSecond ∧
    (RetryConfig.sanitize ⟨0, 0, 0, 0, false, []⟩).BackoffFactor = 2 ∧
    (RetryWithBackoff false ⟨0, 0, 0, 0, false, []⟩
      (fun _ => some (.base "boom"))).2 = 4 :=
  ⟨C10_default_substitution.1 _ (by norm_num),
   C10_default_substitution.2.1 _ (by norm_num),
   C10_default_substitution.2.2.1 _ (by norm_num),
   C10_default_substitution.2.2.2.1 _ (by norm_num),
   C10_default_substitution.2.2.2.2 _ _ (fun _ => .base "boom")
     (by norm_num) rfl (fun _ => rfl)⟩

/-! ## Circuit breaker (`utils.CircuitBreaker`) -/

/-- State of the Go struct `CircuitBreaker`; `state` is one of the strings
`"closed"`, `"open"`, `"half-open"` exactly as in the source. -/
structure CircuitBreaker where
  maxFailures : ℤ
  resetTimeout : ℚ
  failures : ℤ
  lastFailureTime : ℚ
  state : String
deriving Repr, DecidableEq

/-- `NewCircuitBreaker(maxFailures, resetTimeout)`: zero failures, zero
last-failure time (Go zero value), state `"closed"`. -/
def NewCircuitBreaker (maxFailures : ℤ) (resetTimeout : ℚ) : CircuitBreaker :=
  { maxFailures := maxFailures, resetTimeout := resetTimeout,
    failures := 0, lastFailureTime := 0, state := "closed" }

/-- `CircuitBreaker.State()`. -/
def CircuitBreaker.State (cb : CircuitBreaker) : String := cb.state

/-- The tail of `Execute` after the open-state gate: invoke `fn` (outcome
`fnRes`, `none` = success), book-keep failures/state. -/
def CircuitBreaker.afterGate (cb : CircuitBreaker) (now : ℚ)
    (fnRes : Option GoError) : Option GoError × CircuitBreaker × Bool :=
  match fnRes with
  | some err =>
    let cb2 := { cb with failures := cb.failures + 1, lastFailureTime := now }
    let cb3 := if cb2.failures ≥ cb2.maxFailures then { cb2 with state := "open" } else cb2
    (some err, cb3, true)
  | none => (none, { cb with failures := 0, state := "closed" }, true)

/-- `CircuitBreaker.Execute(fn)` at instant `now`. The last component of
the result says whether `fn` was actually invoked: the
still-open branch returns `errors.New("circuit breaker is open")` without
calling it. -/
def CircuitBreaker.Execute (cb : CircuitBreaker) (now : ℚ)
    (fnRes : Option GoError) : Option GoError × CircuitBreaker × Bool :=
  if cb.state = "open" then
    if now - cb.lastFailureTime > cb.resetTimeout then
      CircuitBreaker.afterGate { cb with state := "half-open" } now fnRes
    else (some (.base "circuit breaker is open"), cb, false)
  else cb.afterGate now fnRes

/-- A sequence of `Execute` calls: each event is an instant together with
the outcome the wrapped function would produce. -/
def CircuitBreaker.run (cb : CircuitBreaker)
    (events : List (ℚ × Option GoError)) : CircuitBreaker :=
  events.foldl (fun c e => (c.Execute e.1 e.2).2.1) cb

/-- Reachability invariant: whenever the breaker is open, at least
`maxFailures` failures have accumulated. -/
def CircuitBreaker.OpenInv (cb : CircuitBreaker) : Prop :=
  cb.state = "open" → cb.maxFailures ≤ cb.failures

theorem CircuitBreaker.exec_not_open (cb : CircuitBreaker) (now : ℚ)
    (fnRes : Option GoError) (h : ¬ cb.state = "open") :
    cb.Execute now fnRes = cb.afterGate now fnRes := by
  unfold CircuitBreaker.Execute
  rw [if_neg h]

theorem CircuitBreaker.exec_open_within (cb : CircuitBreaker) (now : ℚ)
    (fnRes : Option GoError) (h : cb.state = "open")
    (ht : now - cb.lastFailureTime ≤ cb.resetTimeout) :
    cb.Execute now fnRes = (some (.base "circuit breaker is open"), cb, false) := by
  unfold CircuitBreaker.Execute
  rw [if_pos h, if_neg (not_lt.mpr ht)]

theorem CircuitBreaker.exec_open_elapsed (cb : CircuitBreaker) (now : ℚ)
    (fnRes : Option GoError) (h : cb.state = "open")
    (ht : now - cb.lastFailureTime > cb.resetTimeout) :
    cb.Execute now fnRes =
      CircuitBreaker.afterGate { cb with state := "half-open" } now fnRes := by
  unfold CircuitBreaker.Execute
  rw [if_pos h, if_pos ht]

theorem CircuitBreaker.afterGate_success (cb : CircuitBreaker) (now : ℚ) :
    cb.afterGate now none =
      (none, { cb with failures := 0, state := "closed" }, true) := rfl

theorem CircuitBreaker.afterGate_fail (cb : CircuitBreaker) (now : ℚ)
    (err : GoError) :
    cb.afterGate now (some err) =
      (some err,
        if cb.failures + 1 ≥ cb.maxFailures then
          { cb with
              failures := cb.failures + 1
              lastFailureTime := now
              state := "open" }
        else { cb with failures := cb.failures + 1, lastFailureTime := now },
        true) := rfl

theorem CircuitBreaker.exec_openInv (cb : CircuitBreaker) (now : ℚ)
    (fnRes : Option GoError) (h : cb.OpenInv) :
    ((cb.Execute now fnRes).2.1).OpenInv := by
  by_cases hopen : cb.state = "open"
  · by_cases ht : now - cb.lastFailureTime > cb.resetTimeout
    · rw [cb.exec_open_elapsed now fnRes hopen ht]
      cases fnRes with
      | none =>
        rw [CircuitBreaker.afterGate_success]
        intro hst
        exact absurd (show ("closed" : String) = "open" from hst) (by decide)
      | some err =>
        rw [CircuitBreaker.afterGate_fail]
        dsimp only
        split_ifs with hge
        · intro _
          exact hge
        · intro hst
          exact absurd (show ("half-open" : String) = "open" from hst) (by decide)
    · rw [cb.exec_open_within now fnRes hopen (not_lt.mp ht)]
      exact h
  · rw [cb.exec_not_open now fnRes hopen]
    cases fnRes with
    | none =>
      rw [CircuitBreaker.afterGate_success]
      intro hst
      exact absurd (show ("closed" : String) = "open" from hst) (by decide)
    | some err =>
      rw [CircuitBreaker.afterGate_fail]
      dsimp only
      split_ifs with hge
      · intro _
        exact hge
      · intro hst
        exact absurd hst hopen

theorem CircuitBreaker.run_failures_opens :
    ∀ (ev : List (ℚ × GoError)) (cb : CircuitBreaker),
      cb.state = "closed" →
      cb.failures + ev.length = cb.maxFailures →
      ev ≠ [] →
      (cb.run (ev.map fun te => (te.1, some te.2))).state = "open" ∧
      (cb.run (ev.map fun te => (te.1, some te.2))).failures = cb.maxFailures := by
  intro ev
  induction ev with
  | nil => intro cb _ _ hne; exact absurd rfl hne
  | cons te rest ih =>
    intro cb hclosed hcount _
    have hne_open : ¬ cb.state = "open" := by
      rw [hclosed]; decide
    have hstep : (cb.Execute te.1 (some te.2)).2.1 =
        if cb.failures + 1 ≥ cb.maxFailures then
          { cb with
              failures := cb.failures + 1
              lastFailureTime := te.1
              state := "open" }
        else { cb with failures := cb.failures + 1, lastFailureTime := te.1 } := by
      rw [cb.exec_not_open te.1 (some te.2) hne_open, CircuitBreaker.afterGate_fail]
    show ((cb.Execute te.1 (some te.2)).2.1.run
        (rest.map fun te => (te.1, some te.2))).state = "open" ∧
      ((cb.Execute te.1 (some te.2)).2.1.run
        (rest.map fun te => (te.1, some te.2))).failures = cb.maxFailures
    rw [hstep]
    cases rest with
    | nil =>
      have h1 : cb.failures + 1 = cb.maxFailures := by
        simp only [List.length_cons, List.length_nil] at hcount
        push_cast at hcount
        omega
      rw [if_pos (le_of_eq h1.symm)]
      exact ⟨rfl, h1⟩
    | cons te2 rest2 =>
      have hlt : ¬ cb.failures + 1 ≥ cb.maxFailures := by
        simp only [List.length_cons] at hcount
        push_cast at hcount
        omega
      rw [if_neg hlt]
      refine ih { cb with failures := cb.failures + 1, lastFailureTime := te.1 }
        hclosed ?_ (List.cons_ne_nil te2 rest2)
      show cb.failures + 1 + ((te2 :: rest2).length : ℤ) = cb.maxFailures
      simp only [List.length_cons] at hcount ⊢
      push_cast at hcount ⊢
      omega

/-- **C3.** The circuit breaker is the three-state machine the claim
describes: (1) it starts `"closed"` (and satisfies the open-state
reachability invariant); (2) from a closed state, `maxFailures`
consecutive failures drive it to `"open"`; (3) while open and within
`resetTimeout` of the last failure, `Execute` returns the distinguished
error without invoking the wrapped function and without changing state;
(4) once `resetTimeout` has elapsed, the trial call is invoked —
success yields `"closed"` with the failure counter reset to zero, and
(5) failure reopens the breaker; (6) any success while closed or
half-open resets the failure counter to zero (and closes the breaker);
(7) `Execute` preserves the open-state invariant, which justifies the
hypothesis of (5) for every reachable state. -/
theorem C3_circuit_breaker :
    (∀ (maxFailures : ℤ) (resetTimeout : ℚ),
      (NewCircuitBreaker maxFailures resetTimeout).State = "closed" ∧
      (NewCircuitBreaker maxFailures resetTimeout).OpenInv) ∧
    (∀ (ev : List (ℚ × GoError)) (cb : CircuitBreaker),
      cb.State = "closed" → cb.failures + ev.length = cb.maxFailures → ev ≠ [] →
      (cb.run (ev.map fun te => (te.1, some te.2))).State = "open") ∧
    (∀ (cb : CircuitBreaker) (now : ℚ) (fnRes : Option GoError),
      cb.State = "open" → now - cb.lastFailureTime ≤ cb.resetTimeout →
      cb.Execute now fnRes = (some (.base "circuit breaker is open"), cb, false)) ∧
    (∀ (cb : CircuitBreaker) (now : ℚ),
      cb.State = "open" → now - cb.lastFailureTime > cb.resetTimeout →
      (cb.Execute now none).2.2 = true ∧
      ((cb.Execute now none).2.1).State = "closed" ∧
      ((cb.Execute now none).2.1).failures = 0) ∧
    (∀ (cb : CircuitBreaker) (now : ℚ) (err : GoError),
      cb.OpenInv → cb.State = "open" → now - cb.lastFailureTime > cb.resetTimeout →
      (cb.Execute now (some err)).2.2 = true ∧
      ((cb.Execute now (some err)).2.1).State = "open") ∧
    (∀ (cb : CircuitBreaker) (now : ℚ),
      cb.State = "closed" ∨ cb.State = "half-open" →
      ((cb.Execute now none).2.1).failures = 0 ∧
      ((cb.Execute now none).2.1).State = "closed") ∧
    (∀ (cb : CircuitBreaker) (now : ℚ) (fnRes : Option GoError),
      cb.OpenInv → ((cb.Execute now fnRes).2.1).OpenInv) := by
  refine ⟨?_, ?_, ?_, ?_, ?_, ?_, ?_⟩
  · intro maxFailures resetTimeout
    exact ⟨rfl, fun hst =>
      absurd (show ("closed" : String) = "open" from hst) (by decide)⟩
  · intro ev cb hclosed hcount hne
    exact (CircuitBreaker.run_failures_opens ev cb hclosed hcount hne).1
  · intro cb now fnRes hopen ht
    exact cb.exec_open_within now fnRes hopen ht
  · intro cb now hopen ht
    rw [cb.exec_open_elapsed now none hopen ht, CircuitBreaker.afterGate_success]
    exact ⟨rfl, rfl, rfl⟩
  · intro cb now err hInv hopen ht
    rw [cb.exec_open_elapsed now (some err) hopen ht, CircuitBreaker.afterGate_fail]
    have hge : ({ cb with state := "half-open" } : CircuitBreaker).failures + 1 ≥
        ({ cb with state := "half-open" } : CircuitBreaker).maxFailures := by
      have := hInv hopen
      dsimp only
      omega
    rw [if_pos hge]
    exact ⟨rfl, rfl⟩
  · intro cb now hst
    have hne : ¬ cb.state = "open" := by
      rcases hst with h | h <;> rw [show cb.state = cb.State from rfl, h] <;> decide
    rw [cb.exec_not_open now none hne, CircuitBreaker.afterGate_success]
    exact ⟨rfl, rfl⟩
  · intro cb now fnRes hInv
    exact cb.exec_openInv now fnRes hInv

/-- Witness for C3 at concrete states: a breaker with `maxFailures = 2`,
`resetTimeout = 10` opens after two failures; an open breaker
(`failures = 2`, last failure at time 0) rejects at time 5 without
invoking the function, lets a trial through at time 11 (success closes
and zeroes, failure reopens), and a half-open success resets the
counter. -/
theorem C3_circuit_breaker_witness :
    ((NewCircuitBreaker 2 10).run
      [((0 : ℚ), some (.base "e1")), ((1 : ℚ), some (.base "e2"))]).State = "open" ∧
    CircuitBreaker.Execute ⟨2, 10, 2, 0, "open"⟩ 5 none =
      (some (.base "circuit breaker is open"), ⟨2, 10, 2, 0, "open"⟩, false) ∧
    (CircuitBreaker.Execute ⟨2, 10, 2, 0, "open"⟩ 11 none).2.2 = true ∧
    ((CircuitBreaker.Execute ⟨2, 10, 2, 0, "open"⟩ 11 none).2.1).State = "closed" ∧
    ((CircuitBreaker.Execute ⟨2, 10, 2, 0, "open"⟩ 11 none).2.1).failures = 0 ∧
    ((CircuitBreaker.Execute ⟨2, 10, 2, 0, "open"⟩ 11 (some (.base "e3"))).2.1).State = "open" ∧
    ((CircuitBreaker.Execute ⟨2, 10, 1, 0, "half-open"⟩ 3 none).2.1).failures = 0 := by
  obtain ⟨h1, h2, h3, h4, h5, h6, h7⟩ := C3_circuit_breaker
  have w2 := h2 [((0 : ℚ), .base "e1"), ((1 : ℚ), .base "e2")]
    (NewCircuitBreaker 2 10) rfl (by decide) (by simp)
  have w3 := h3 ⟨2, 10, 2, 0, "open"⟩ 5 none rfl (by norm_num)
  have w4 := h4 ⟨2, 10, 2, 0, "open"⟩ 11 rfl (by norm_num)
  have w5 := h5 ⟨2, 10, 2, 0, "open"⟩ 11 (.base "e3")
    (fun _ => by norm_num) rfl (by norm_num)
  have w6 := h6 ⟨2, 10, 1, 0, "half-open"⟩ 3 (Or.inr rfl)
  exact ⟨w2, w3, w4.1, w4.2.1, w4.2.2, w5.2, w6.1⟩

/-! ## DNS resolver retry loop (`subdomain.Resolver`) -/

/-- The `Error()` string of a `GoError` (claims only rely on `base`
messages). -/
def GoError.msg : GoError → String
  | .base s => s
  | .canceled => "context canceled"
  | .maxRetriesExceeded _ inner => "max retries exceeded: " ++ inner.msg

/-- `lastErr.Error()` with the Go `nil` giving the empty string (the
zero value of `errMsg` in `resolveWithRetry`). -/
def errString : Option GoError → String
  | some e => e.msg
  | none => ""

/-- `ResolutionResult` record. -/
structure ResolutionResult where
  subdomain : String
  ips : List String
  alive : Bool
  error : String
deriving Repr, DecidableEq

/-- `err == nil && len(ips) > 0`: a lookup attempt counts as a success
only when it returned no error *and* at least one IP address. -/
def lookupOk (res : Option GoError × List String) : Bool :=
  res.1.isNone && decide (0 < res.2.length)

/-- The `for attempt := 0; attempt <= r.config.Retries; attempt++` loop of
`resolveWithRetry`. `lookup i t` is what `resolver.LookupIPAddr` returns
on the `i`-th attempt under the per-attempt timeout `t`; `remaining` is
the number of attempts still to make and `lastErr` the error of the
previous attempt. Returns the `ResolutionResult` together with the list
of back-off sleeps performed (`100ms * (attempt+1)` after every failed
attempt except the last). -/
def resolveLoop (timeout : ℚ) (sub : String)
    (lookup : Nat → ℚ → Option GoError × List String) :
    Nat → Nat → Option GoError → ResolutionResult × List ℚ
  | _, 0, lastErr =>
    ({ subdomain := sub, ips := [], alive := false,
       error := errString lastErr }, [])
  | i, r + 1, _ =>
    let res := lookup i timeout
    if lookupOk res then
      ({ subdomain := sub, ips := res.2, alive := true, error := "" }, [])
    else
      let rest := resolveLoop timeout sub lookup (i + 1) r res.1
      if r = 0 then rest
      else (rest.1, ((i : ℚ) + 1) * (100 * timeMillisecond) :: rest.2)

/-- `Resolver.resolveWithRetry(ctx, resolver, subdomain)`: run the loop
with `Retries + 1` attempts (a negative `Retries` makes zero attempts,
exactly as the Go loop guard does). -/
def Resolver.resolveWithRetry (timeout : ℚ) (retries : ℤ) (sub : String)
    (lookup : Nat → ℚ → Option GoError × List String) :
    ResolutionResult × List ℚ :=
  resolveLoop timeout sub lookup 0 (retries + 1).toNat none

/-- `Resolver.Resolve(ctx, subdomains)` on a never-cancelled context:
every subdomain is handed to some worker, each worker produces
`resolveWithRetry` for its subdomain, and the collector keeps exactly
the results with `Alive = true`. `arrival` is the completion order in
which worker results reach the result channel (any interleaving);
`lookups sub` is the DNS behaviour seen by the worker pinned to `sub`. -/
def Resolver.Resolve (timeout : ℚ) (retries : ℤ)
    (lookups : String → Nat → ℚ → Option GoError × List String)
    (arrival : List String) : List ResolutionResult :=
  (arrival.map fun sub =>
    (Resolver.resolveWithRetry timeout retries sub (lookups sub)).1).filter
    (fun result => result.alive)

theorem resolveLoop_alive (timeout : ℚ) (sub : String)
    (lookup : Nat → ℚ → Option GoError × List String) :
    ∀ (r i : Nat) (e : Option GoError),
      (resolveLoop timeout sub lookup i r e).1.alive = true ↔
        ∃ j, j < r ∧ lookupOk (lookup (i + j) timeout) = true := by
  intro r
  induction r with
  | zero =>
    intro i e
    simp [resolveLoop]
  | succ r ih =>
    intro i e
    unfold resolveLoop
    dsimp only
    by_cases h : lookupOk (lookup i timeout) = true
    · rw [if_pos h]
      refine ⟨fun _ => ⟨0, by omega, by simpa using h⟩, fun _ => rfl⟩
    · rw [if_neg h]
      have halter : ((if r = 0 then resolveLoop timeout sub lookup (i + 1) r (lookup i timeout).1
          else ((resolveLoop timeout sub lookup (i + 1) r (lookup i timeout).1).1,
            ((i : ℚ) + 1) * (100 * timeMillisecond) ::
              (resolveLoop timeout sub lookup (i + 1) r (lookup i timeout).1).2)).1) =
          (resolveLoop timeout sub lookup (i + 1) r (lookup i timeout).1).1 := by
        split_ifs <;> rfl
      rw [halter, ih (i + 1) (lookup i timeout).1]
      constructor
      · rintro ⟨j, hj, hok⟩
        exact ⟨j + 1, by omega, by rw [show i + (j + 1) = i + 1 + j by omega]; exact hok⟩
      · rintro ⟨j, hj, hok⟩
        cases j with
        | zero => exact absurd (by simpa using hok) h
        | succ j =>
          exact ⟨j, by omega, by rw [show i + 1 + j = i + (j + 1) by omega]; exact hok⟩

theorem resolveLoop_error (timeout : ℚ) (sub : String)
    (lookup : Nat → ℚ → Option GoError × List String) :
    ∀ (r i : Nat) (e : Option GoError),
      (∀ j, j < r + 1 → ¬ lookupOk (lookup (i + j) timeout) = true) →
      (resolveLoop timeout sub lookup i (r + 1) e).1.error =
        errString (lookup (i + r) timeout).1 := by
  intro r
  induction r with
  | zero =>
    intro i e hfail
    unfold resolveLoop
    dsimp only
    have h0 : ¬ lookupOk (lookup i timeout) = true := by
      have := hfail 0 (by omega)
      simpa using this
    rw [if_neg h0]
    rfl
  | succ r ih =>
    intro i e hfail
    unfold resolveLoop
    dsimp only
    have h0 : ¬ lookupOk (lookup i timeout) = true := by
      have := hfail 0 (by omega)
      simpa using this
    rw [if_neg h0]
    rw [if_neg (by omega : ¬ r + 1 = 0)]
    have := ih (i + 1) (lookup i timeout).1
      (fun j hj => by
        have := hfail (j + 1) (by omega)
        rw [show i + (j + 1) = i + 1 + j by omega] at this
        exact this)
    rw [show i + 1 + r = i + (r + 1) by omega] at this
    exact this

theorem resolveLoop_sleeps (timeout : ℚ) (sub : String)
    (lookup : Nat → ℚ → Option GoError × List String) :
    ∀ (r i : Nat) (e : Option GoError),
      ∃ k, (resolveLoop timeout sub lookup i r e).2 =
        (List.range k).map fun j : ℕ =>
          ((i + j + 1 : ℕ) : ℚ) * (100 * timeMillisecond) := by
  intro r
  induction r with
  | zero =>
    intro i e
    exact ⟨0, rfl⟩
  | succ r ih =>
    intro i e
    unfold resolveLoop
    dsimp only
    by_cases h : lookupOk (lookup i timeout) = true
    · rw [if_pos h]
      exact ⟨0, rfl⟩
    · rw [if_neg h]
      rcases Nat.eq_zero_or_pos r with hr | hr
      · subst hr
        rw [if_pos rfl]
        exact ⟨0, rfl⟩
      · rw [if_neg (by omega)]
        obtain ⟨k, hk⟩ := ih (i + 1) (lookup i timeout).1
        refine ⟨k + 1, ?_⟩
        rw [hk, List.range_succ_eq_map, List.map_cons, List.map_map]
        have htail : List.map
            ((fun j : ℕ => ((i + j + 1 : ℕ) : ℚ) * (100 * timeMillisecond)) ∘ Nat.succ)
            (List.range k) =
            List.map (fun j : ℕ => ((i + 1 + j + 1 : ℕ) : ℚ) * (100 * timeMillisecond))
              (List.range k) := by
          apply List.map_congr_left
          intro a _
          simp only [Function.comp_apply, Nat.succ_eq_add_one]
          push_cast
          ring
        rw [htail]
        have hhead : ((i : ℚ) + 1) * (100 * timeMillisecond) =
            ((i + 0 + 1 : ℕ) : ℚ) * (100 * timeMillisecond) := by
          push_cast
          ring
        rw [hhead]

/-- **C6.** In the DNS resolver: (1) the sleeps between attempts are
`100ms * (attempt+1)` — linear, not exponential; (2) a result is
`Alive = true` exactly when some attempt within the budget returned no
error and at least one IP address; (3) when every attempt fails, the
error of the final attempt (the last observed error) is recorded in the
result; (4) every element of the list returned by `Resolve` has
`Alive = true` and is the `resolveWithRetry` outcome of one of the input
subdomains. -/
theorem C6_resolver_retry :
    (∀ (timeout : ℚ) (retries : ℤ) (sub : String)
        (lookup : Nat → ℚ → Option GoError × List String),
      ∃ k, (Resolver.resolveWithRetry timeout retries sub lookup).2 =
        (List.range k).map fun j : ℕ =>
          ((j + 1 : ℕ) : ℚ) * (100 * timeMillisecond)) ∧
    (∀ (timeout : ℚ) (retries : ℤ) (sub : String)
        (lookup : Nat → ℚ → Option GoError × List String),
      (Resolver.resolveWithRetry timeout retries sub lookup).1.alive = true ↔
        ∃ j, j < (retries + 1).toNat ∧ lookupOk (lookup j timeout) = true) ∧
    (∀ (timeout : ℚ) (retries : ℤ) (sub : String)
        (lookup : Nat → ℚ → Option GoError × List String)
        (e : GoError) (ips : List String),
      0 ≤ retries →
      (∀ j, j < (retries + 1).toNat → ¬ lookupOk (lookup j timeout) = true) →
      lookup retries.toNat timeout = (some e, ips) →
      (Resolver.resolveWithRetry timeout retries sub lookup).1.error = e.msg) ∧
    (∀ (timeout : ℚ) (retries : ℤ)
        (lookups : String → Nat → ℚ → Option GoError × List String)
        (arrival : List String) (res : ResolutionResult),
      res ∈ Resolver.Resolve timeout retries lookups arrival →
      res.alive = true ∧ ∃ sub ∈ arrival,
        res = (Resolver.resolveWithRetry timeout retries sub (lookups sub)).1) := by
  refine ⟨?_, ?_, ?_, ?_⟩
  · intro timeout retries sub lookup
    obtain ⟨k, hk⟩ := resolveLoop_sleeps timeout sub lookup (retries + 1).toNat 0 none
    refine ⟨k, ?_⟩
    rw [show Resolver.resolveWithRetry timeout retries sub lookup =
      resolveLoop timeout sub lookup 0 (retries + 1).toNat none from rfl, hk]
    apply List.map_congr_left
    intro a _
    norm_num
  · intro timeout retries sub lookup
    have := resolveLoop_alive timeout sub lookup (retries + 1).toNat 0 none
    simpa using this
  · intro timeout retries sub lookup e ips hret hfail hlast
    have htn : (retries + 1).toNat = retries.toNat + 1 := by omega
    rw [htn] at hfail
    have := resolveLoop_error timeout sub lookup retries.toNat 0 none
      (fun j hj => by simpa using hfail j (by omega))
    rw [show Resolver.resolveWithRetry timeout retries sub lookup =
      resolveLoop timeout sub lookup 0 (retries + 1).toNat none from rfl, htn]
    rw [this, Nat.zero_add, hlast]
    rfl
  · intro timeout retries lookups arrival res hmem
    unfold Resolver.Resolve at hmem
    rw [List.mem_filter] at hmem
    obtain ⟨hmap, halive⟩ := hmem
    rw [List.mem_map] at hmap
    obtain ⟨sub, hsub, heq⟩ := hmap
    exact ⟨halive, sub, hsub, heq.symm⟩

/-- Witness for C6: with `Retries = 2` and a lookup that fails twice and
then returns one IP, `resolveWithRetry` is alive; an always-failing
lookup records the last error `"no such host"`; and the alive result of
`"a.example.com"` is the only element surfaced by `Resolve`. -/
theorem C6_resolver_retry_witness :
    (Resolver.resolveWithRetry 5 2 "b.example.com"
      (fun _ _ => (some (.base "no such host"), ([] : List String)))).1.error =
      GoError.msg (.base "no such host") ∧
    (({ subdomain := "a.example.com", ips := ["1.2.3.4"], alive := true,
        error := "" } : ResolutionResult).alive = true ∧
      ∃ sub ∈ ["b.example.com", "a.example.com"],
        ({ subdomain := "a.example.com", ips := ["1.2.3.4"], alive := true,
           error := "" } : ResolutionResult) =
          (Resolver.resolveWithRetry 5 2 sub
            ((fun sub2 => fun i _ => if sub2 = "a.example.com" ∧ 2 ≤ i
                then (none, ["1.2.3.4"])
                else (some (.base "no such host"), [])) sub)).1) := by
  constructor
  · exact C6_resolver_retry.2.2.1 5 2 "b.example.com"
      (fun _ _ => (some (.base "no such host"), ([] : List String)))
      (.base "no such host") [] (by norm_num) (by decide) rfl
  · exact C6_resolver_retry.2.2.2 5 2
      (fun sub2 => fun i _ => if sub2 = "a.example.com" ∧ 2 ≤ i
        then (none, ["1.2.3.4"])
        else (some (.base "no such host"), []))
      ["b.example.com", "a.example.com"]
      { subdomain := "a.example.com", ips := ["1.2.3.4"], alive := true,
        error := "" }
      (by decide)

/-! ## ParallelMap (`utils.ParallelMap`)

The goroutine bodies are pure given `fn`; true concurrency is modelled by
an arbitrary completion order `order` (the order in which the spawned
jobs reach their error-send / result-write). The capacity-1 `errs`
channel with a non-blocking send keeps exactly the first error in
completion order; `results[idx] = result` writes by input index; and
`wg.Wait()` means every job runs before the final select. The semaphore
(`effectiveWorkers` slots) only bounds concurrency and cannot influence
the functional outcome. -/

/-- `if workers <= 0 { workers = len(items) }`. -/
def effectiveWorkers {T : Type} (items : List T) (workers : ℤ) : ℤ :=
  if workers ≤ 0 then (items.length : ℤ) else workers

/-- The error a single application would send, if any. -/
def errOf {R : Type} : Except GoError R → Option GoError
  | .error e => some e
  | .ok _ => none

/-- The `results` slice when every application succeeded. -/
def collectOk {T R : Type} (fn : T → Except GoError R) : List T → Option (List R)
  | [] => some []
  | it :: ts =>
    match fn it, collectOk fn ts with
    | .ok r, some rs => some (r :: rs)
    | _, _ => none

/-- `ParallelMap(ctx, items, workers, fn)` on a never-cancelled context:
if any job failed, the first failure in completion order is returned
(with the results slice discarded); otherwise the index-ordered results
slice is returned. -/
def ParallelMap {T R : Type} (items : List T) (workers : ℤ)
    (fn : T → Except GoError R) (order : List ℕ) : Except GoError (List R) :=
  let _sem := effectiveWorkers items workers
  match (order.filterMap fun i => (items.get? i).bind fun it => errOf (fn it)).head? with
  | some e => .error e
  | none => .ok ((collectOk fn items).getD [])

theorem collectOk_all_ok {T R : Type} (fn : T → Except GoError R) :
    ∀ items : List T, (∀ it ∈ items, ∃ r, fn it = .ok r) →
      ∃ rs, collectOk fn items = some rs ∧
        ∀ i : ℕ, rs.get? i = (items.get? i).bind fun it => (fn it).toOption := by
  intro items
  induction items with
  | nil =>
    intro _
    exact ⟨[], rfl, fun i => by cases i <;> rfl⟩
  | cons it ts ih =>
    intro hok
    obtain ⟨r, hr⟩ := hok it (List.mem_cons_self it ts)
    obtain ⟨rs, hrs, hget⟩ := ih fun x hx => hok x (List.mem_cons_of_mem it hx)
    refine ⟨r :: rs, ?_, ?_⟩
    · unfold collectOk
      rw [hr, hrs]
    · intro i
      cases i with
      | zero =>
        show some r = (some it).bind fun x => (fn x).toOption
        rw [Option.bind]
        show some r = (fn it).toOption
        rw [hr]
        rfl
      | succ i =>
        show rs.get? i = (ts.get? i).bind fun x => (fn x).toOption
        exact hget i

/-- **C4.** `ParallelMap`: (1) a non-positive worker count defaults the
semaphore size to `len(items)`; (2) when every application succeeds the
result is `ok` and the output slice holds, at every input index, the
result of `fn` on the item at that index — independent of the completion
order; (3) when some application fails (and the completion order covers
every index, as it does once `wg.Wait()` returns), the call returns an
error which is the error of one of the failing items, namely the first
one in completion order. -/
theorem C4_parallel_map :
    (∀ (T : Type) (items : List T) (workers : ℤ), workers ≤ 0 →
      effectiveWorkers items workers = (items.length : ℤ)) ∧
    (∀ (T R : Type) (items : List T) (workers : ℤ)
        (fn : T → Except GoError R) (order : List ℕ),
      (∀ it ∈ items, ∃ r, fn it = .ok r) →
      ∃ rs, ParallelMap items workers fn order = .ok rs ∧
        ∀ i : ℕ, rs.get? i = (items.get? i).bind fun it => (fn it).toOption) ∧
    (∀ (T R : Type) (items : List T) (workers : ℤ)
        (fn : T → Except GoError R) (order : List ℕ),
      (∀ i, i < items.length → i ∈ order) →
      (∃ i it, items.get? i = some it ∧ (errOf (fn it)).isSome) →
      ∃ e, ParallelMap items workers fn order = .error e ∧
        ∃ it ∈ items, fn it = .error e) := by
  refine ⟨?_, ?_, ?_⟩
  · intro T items workers hw
    unfold effectiveWorkers
    rw [if_pos hw]
  · intro T R items workers fn order hok
    obtain ⟨rs, hrs, hget⟩ := collectOk_all_ok fn items hok
    refine ⟨rs, ?_, hget⟩
    unfold ParallelMap
    have hnil : (order.filterMap fun i =>
        (items.get? i).bind fun it => errOf (fn it)) = [] := by
      rw [List.filterMap_eq_nil_iff]
      intro i _
      cases hgi : items.get? i with
      | none => rfl
      | some it =>
        obtain ⟨r, hr⟩ := hok it (List.get?_mem hgi)
        show (some it).bind (fun x => errOf (fn x)) = none
        rw [Option.bind]
        show errOf (fn it) = none
        rw [hr]
        rfl
    rw [hnil]
    show Except.ok ((collectOk fn items).getD []) = Except.ok rs
    rw [hrs]
    rfl
  · intro T R items workers fn order hcover hfail
    obtain ⟨i0, it0, hget0, hsome⟩ := hfail
    have hi0lt : i0 < items.length := by
      by_contra hge
      rw [List.get?_eq_none.mpr (by omega)] at hget0
      cases hget0
    obtain ⟨e0, he0⟩ := Option.isSome_iff_exists.mp hsome
    have hmemL : e0 ∈ order.filterMap fun i =>
        (items.get? i).bind fun it => errOf (fn it) := by
      rw [List.mem_filterMap]
      refine ⟨i0, hcover i0 hi0lt, ?_⟩
      rw [hget0]
      show (errOf (fn it0)) = some e0
      exact he0
    have hne : (order.filterMap fun i =>
        (items.get? i).bind fun it => errOf (fn it)) ≠ [] := by
      intro hnil
      rw [hnil] at hmemL
      cases hmemL
    cases hL : (order.filterMap fun i =>
        (items.get? i).bind fun it => errOf (fn it)) with
    | nil => exact absurd hL hne
    | cons e rest =>
      refine ⟨e, ?_, ?_⟩
      · unfold ParallelMap
        rw [hL]
        rfl
      · have : e ∈ order.filterMap fun i =>
            (items.get? i).bind fun it => errOf (fn it) := by
          rw [hL]
          exact List.mem_cons_self e rest
        rw [List.mem_filterMap] at this
        obtain ⟨j, _, hj⟩ := this
        cases hgj : items.get? j with
        | none =>
          rw [hgj] at hj
          cases hj
        | some itj =>
          rw [hgj] at hj
          have hj2 : errOf (fn itj) = some e := hj
          refine ⟨itj, List.get?_mem hgj, ?_⟩
          cases hfj : fn itj with
          | ok r =>
            rw [hfj] at hj2
            cases hj2
          | error e2 =>
            rw [hfj] at hj2
            cases hj2
            rfl

/-- Witness for C4: over `[1, 2, 3]`, an all-succeeding `fn` yields the
index-placed results for any completion order, and an `fn` failing on 2
returns a failing item's error under completion order `[2, 0, 1]`. -/
theorem C4_parallel_map_witness :
    (effectiveWorkers [1, 2, 3] 0 = 3) ∧
    (∃ rs, ParallelMap [1, 2, 3] 0
        (fun n : ℕ => (Except.ok (n * 10) : Except GoError ℕ)) [2, 0, 1] = .ok rs ∧
      ∀ i : ℕ, rs.get? i = (([1, 2, 3] : List ℕ).get? i).bind fun it =>
        ((Except.ok (it * 10) : Except GoError ℕ)).toOption) ∧
    (∃ e, ParallelMap [1, 2, 3] 2
        (fun n : ℕ => if n = 2 then (Except.error (.base "bad") : Except GoError ℕ)
          else Except.ok (n * 10)) [2, 0, 1] = .error e ∧
      ∃ it ∈ [1, 2, 3], (if it = 2 then (Except.error (.base "bad") : Except GoError ℕ)
        else Except.ok (it * 10)) = .error e) := by
  refine ⟨?_, ?_, ?_⟩
  · exact C4_parallel_map.1 ℕ [1, 2, 3] 0 (by norm_num)
  · exact C4_parallel_map.2.1 ℕ ℕ [1, 2, 3] 0
      (fun n : ℕ => (Except.ok (n * 10) : Except GoError ℕ)) [2, 0, 1]
      (fun it _ => ⟨it * 10, rfl⟩)
  · exact C4_parallel_map.2.2 ℕ ℕ [1, 2, 3] 2
      (fun n : ℕ => if n = 2 then (Except.error (.base "bad") : Except GoError ℕ)
        else Except.ok (n * 10)) [2, 0, 1]
      (by decide) ⟨1, 2, rfl, by decide⟩

/-! ## HTTP prober (`subdomain.Prober`) -/

/-- ASCII whitespace, the practically relevant fragment of the Unicode
class `strings.TrimSpace` cuts. -/
def isSpaceChar (c : Char) : Bool :=
  c = ' ' || c = '\t' || c = '\n' || c = '\r'

/-- `strings.TrimSpace`. -/
def trimSpace (s : String) : String :=
  ⟨((s.data.dropWhile isSpaceChar).reverse.dropWhile isSpaceChar).reverse⟩

/-- `strings.HasPrefix(s, p)` expressed on character lists: `strLead
p.data s.data` says `p` is a leading segment of `s`. -/
def strLead : List Char → List Char → Bool
  | [], _ => true
  | _ :: _, [] => false
  | p :: ps, c :: cs => p = c && strLead ps cs

/-- `Prober.normalizeURL(target)`: trim, keep as-is when a scheme is
present, otherwise try HTTPS first, then HTTP. -/
def Prober.normalizeURL (target : String) : List String :=
  let target := trimSpace target
  if strLead "http://".data target.data || strLead "https://".data target.data then [target]
  else ["https://" ++ target, "http://" ++ target]

/-- The claim-relevant projection of the Go `ProbeResult`: the probed URL
and the HTTP status code (`0` = no response; the remaining payload fields
— title, headers, timings — are filled from the response body and do not
influence candidate selection). -/
structure ProbeResult where
  url : String
  statusCode : ℤ
deriving Repr, DecidableEq

/-- The retry loop of `Prober.probeWithRetry`: `attempts i` is what
`p.probe(ctx, url)` returns on the `i`-th attempt; the first response
with a positive status code is returned, otherwise the last attempt's
result (`last` starts as the zero-value `ProbeResult`). -/
def probeLoop (attempts : Nat → ProbeResult) :
    Nat → Nat → ProbeResult → ProbeResult
  | _, 0, last => last
  | i, r + 1, _ =>
    let result := attempts i
    if result.statusCode > 0 then result
    else probeLoop attempts (i + 1) r result

/-- `Prober.probeWithRetry(ctx, url)` with `Retries + 1` attempts
(the `url` only flows into the per-attempt oracle; the zero-value
`lastResult` starts with an empty URL). -/
def Prober.probeWithRetry (retries : ℤ) (_url : String)
    (attempts : Nat → ProbeResult) : ProbeResult :=
  probeLoop attempts 0 (retries + 1).toNat { url := "", statusCode := 0 }

/-- The candidate scan inside `Prober.worker`: probe each candidate URL
in order and keep the first that responded (`break` after the send). -/
def firstResponding (retries : ℤ) (attempts : String → Nat → ProbeResult) :
    List String → Option ProbeResult
  | [] => none
  | url :: rest =>
    let result := Prober.probeWithRetry retries url (attempts url)
    if result.statusCode > 0 then some result
    else firstResponding retries attempts rest

/-- One worker's handling of one target. -/
def Prober.processTarget (retries : ℤ) (attempts : String → Nat → ProbeResult)
    (target : String) : Option ProbeResult :=
  firstResponding retries attempts (Prober.normalizeURL target)

/-- `Prober.Probe()` on a never-cancelled context: workers emit one result
per target that responded, and the collector keeps the results with
`StatusCode > 0`. `targets` is the order in which targets are consumed. -/
def Prober.Probe (retries : ℤ) (attempts : String → Nat → ProbeResult)
    (targets : List String) : List ProbeResult :=
  (targets.filterMap (Prober.processTarget retries attempts)).filter
    (fun result => result.statusCode > 0)

theorem probeLoop_all_zero (attempts : Nat → ProbeResult)
    (hz : ∀ j, (attempts j).statusCode = 0) :
    ∀ (r i : Nat) (last : ProbeResult), last.statusCode = 0 →
      (probeLoop attempts i r last).statusCode = 0 := by
  intro r
  induction r with
  | zero => intro i last hlast; exact hlast
  | succ r ih =>
    intro i last _
    unfold probeLoop
    dsimp only
    rw [if_neg (by rw [hz i]; norm_num)]
    exact ih (i + 1) (attempts i) (hz i)

theorem firstResponding_none (retries : ℤ)
    (attempts : String → Nat → ProbeResult) :
    ∀ urls : List String,
      (∀ u ∈ urls, ¬ (Prober.probeWithRetry retries u (attempts u)).statusCode > 0) →
      firstResponding retries attempts urls = none := by
  intro urls
  induction urls with
  | nil => intro _; rfl
  | cons url rest ih =>
    intro hall
    unfold firstResponding
    dsimp only
    rw [if_neg (hall url (List.mem_cons_self url rest))]
    exact ih fun u hu => hall u (List.mem_cons_of_mem url hu)

theorem firstResponding_some (retries : ℤ)
    (attempts : String → Nat → ProbeResult) :
    ∀ (urls : List String) (res : ProbeResult),
      firstResponding retries attempts urls = some res →
      res.statusCode > 0 ∧
      ∃ pre url post, urls = pre ++ url :: post ∧
        (∀ u ∈ pre, ¬ (Prober.probeWithRetry retries u (attempts u)).statusCode > 0) ∧
        res = Prober.probeWithRetry retries url (attempts url) := by
  intro urls
  induction urls with
  | nil => intro res h; cases h
  | cons url rest ih =>
    intro res h
    unfold firstResponding at h
    dsimp only at h
    by_cases hsc : (Prober.probeWithRetry retries url (attempts url)).statusCode > 0
    · rw [if_pos hsc] at h
      cases h
      exact ⟨hsc, [], url, rest, rfl, by simp, rfl⟩
    · rw [if_neg hsc] at h
      obtain ⟨hres, pre, u, post, hsplit, hpre, heq⟩ := ih res h
      refine ⟨hres, url :: pre, u, post, by rw [hsplit]; rfl, ?_, heq⟩
      intro x hx
      rcases List.mem_cons.mp hx with hxu | hxp
      · subst hxu; exact hsc
      · exact hpre x hxp

/-- **C7.** URL candidate generation and selection in the prober:
(1) a (trimmed) target already carrying an `http://` or `https://` scheme
yields itself as the only candidate; (2) otherwise the candidates are
`https://target` then `http://target`, in that order; (3) a target a
worker reports on yields the probe of the first candidate with a positive
status, every earlier candidate having produced none; (4) when no
candidate responds, `probeWithRetry` hands back a `StatusCode = 0` result
(all its attempts being status-0), the worker sends nothing, and the
target contributes nothing to `Probe`; (5) every element of `Probe`'s
result list has a positive status code. -/
theorem C7_prober_candidates :
    (∀ target : String,
      (strLead "http://".data (trimSpace target).data ||
        strLead "https://".data (trimSpace target).data) = true →
      Prober.normalizeURL target = [trimSpace target]) ∧
    (∀ target : String,
      (strLead "http://".data (trimSpace target).data ||
        strLead "https://".data (trimSpace target).data) = false →
      Prober.normalizeURL target =
        ["https://" ++ trimSpace target, "http://" ++ trimSpace target]) ∧
    (∀ (retries : ℤ) (attempts : String → Nat → ProbeResult)
        (target : String) (res : ProbeResult),
      Prober.processTarget retries attempts target = some res →
      res.statusCode > 0 ∧
      ∃ pre url post, Prober.normalizeURL target = pre ++ url :: post ∧
        (∀ u ∈ pre, ¬ (Prober.probeWithRetry retries u (attempts u)).statusCode > 0) ∧
        res = Prober.probeWithRetry retries url (attempts url)) ∧
    (∀ (retries : ℤ) (attempts : String → Nat → ProbeResult)
        (target : String),
      (∀ u ∈ Prober.normalizeURL target, ∀ j,
        ((attempts u) j).statusCode = 0) →
      (∀ u ∈ Prober.normalizeURL target,
        (Prober.probeWithRetry retries u (attempts u)).statusCode = 0) ∧
      Prober.processTarget retries attempts target = none ∧
      ∀ ts1 ts2 : List String,
        Prober.Probe retries attempts (ts1 ++ target :: ts2) =
          Prober.Probe retries attempts (ts1 ++ ts2)) ∧
    (∀ (retries : ℤ) (attempts : String → Nat → ProbeResult)
        (targets : List String) (res : ProbeResult),
      res ∈ Prober.Probe retries attempts targets → res.statusCode > 0) := by
  refine ⟨?_, ?_, ?_, ?_, ?_⟩
  · intro target h
    unfold Prober.normalizeURL
    rw [if_pos h]
  · intro target h
    unfold Prober.normalizeURL
    rw [if_neg (by rw [h]; simp)]
  · intro retries attempts target res h
    exact firstResponding_some retries attempts (Prober.normalizeURL target) res h
  · intro retries attempts target hall
    have hzero : ∀ u ∈ Prober.normalizeURL target,
        (Prober.probeWithRetry retries u (attempts u)).statusCode = 0 := by
      intro u hu
      exact probeLoop_all_zero (attempts u) (hall u hu) _ 0 _ rfl
    refine ⟨hzero, ?_, ?_⟩
    · exact firstResponding_none retries attempts _
        (fun u hu => by rw [hzero u hu]; norm_num)
    · intro ts1 ts2
      unfold Prober.Probe
      rw [List.filterMap_append, List.filterMap_append, List.filterMap_cons]
      rw [show Prober.processTarget retries attempts target = none from
        firstResponding_none retries attempts _
          (fun u hu => by rw [hzero u hu]; norm_num)]
  · intro retries attempts targets res h
    unfold Prober.Probe at h
    rw [List.mem_filter] at h
    simpa using h.2

/-- Witness for C7: `"example.com"` generates HTTPS before HTTP and the
worker keeps the HTTP response when HTTPS stays silent; a target that
never responds contributes nothing to `Probe`. -/
theorem C7_prober_candidates_witness :
    Prober.normalizeURL " example.com " =
      ["https://" ++ trimSpace " example.com ", "http://" ++ trimSpace " example.com "] ∧
    Prober.normalizeURL "http://a.example.com" = [trimSpace "http://a.example.com"] ∧
    Prober.processTarget 2 (fun u _ => { url := u, statusCode := 0 })
      "dead.example.com" = none ∧
    Prober.Probe 2 (fun u _ => { url := u, statusCode := 0 })
        ["dead.example.com"] =
      Prober.Probe 2 (fun u _ => { url := u, statusCode := 0 }) [] := by
  refine ⟨?_, ?_, ?_, ?_⟩
  · exact C7_prober_candidates.2.1 " example.com " (by decide)
  · exact C7_prober_candidates.1 "http://a.example.com" (by decide)
  · exact (C7_prober_candidates.2.2.2.1 2 (fun u _ => { url := u, statusCode := 0 })
      "dead.example.com" (fun _ _ _ => rfl)).2.1
  · exact (C7_prober_candidates.2.2.2.1 2 (fun u _ => { url := u, statusCode := 0 })
      "dead.example.com" (fun _ _ _ => rfl)).2.2 [] []

/-! ## Crawler seen-set (`subdomain.Crawler.markSeen`) -/

/-- The component view of a URL accepted by `net/url.Parse` (Go standard
library, external to this repository): `markSeen` reads `Scheme`, `Host`
and `Path` and ignores `RawQuery` and `Fragment`. A string `url.Parse`
rejects is modelled as `none` at the call site. In Go-parsed URLs the
host never contains `/`; nothing below depends on that. -/
structure GoURL where
  scheme : String
  host : String
  path : String
  query : String
  fragment : String
deriving Repr, DecidableEq

/-- `normalized := parsed.Scheme + "://" + parsed.Host + parsed.Path`. -/
def normalizeKey (u : GoURL) : String :=
  u.scheme ++ "://" ++ u.host ++ u.path

/-- `Crawler.markSeen(urlStr)`: one atomic transition (the method body is
bracketed by `seenMu.Lock()/defer Unlock()`, so check and insert form a
single critical section). Returns whether the URL is new, with the
updated seen set (modelled as the list of recorded keys). -/
def markSeen (seen : List String) (parsed : Option GoURL) : Bool × List String :=
  match parsed with
  | none => (false, seen)
  | some u =>
    let normalized := normalizeKey u
    if normalized ∈ seen then (false, seen)
    else (true, normalized :: seen)

theorem String.append_left_cancel_plaus (a b c : String)
    (h : a ++ b = a ++ c) : b = c := by
  have hd : (a ++ b).data = (a ++ c).data := congrArg String.data h
  rw [String.data_append, String.data_append] at hd
  have := List.append_cancel_left hd
  cases b
  cases c
  exact congrArg String.mk (by simpa using this)

theorem normalizeKey_ignores_query_fragment (u1 u2 : GoURL)
    (hs : u1.scheme = u2.scheme) (hh : u1.host = u2.host)
    (hp : u1.path = u2.path) : normalizeKey u1 = normalizeKey u2 := by
  unfold normalizeKey
  rw [hs, hh, hp]

theorem normalizeKey_path_inj (u1 u2 : GoURL)
    (hs : u1.scheme = u2.scheme) (hh : u1.host = u2.host)
    (hp : u1.path ≠ u2.path) : normalizeKey u1 ≠ normalizeKey u2 := by
  unfold normalizeKey
  rw [hs, hh]
  intro heq
  exact hp (String.append_left_cancel_plaus _ _ _ heq)

/-- **C8.** `markSeen` dedupes on `scheme + "://" + host + path`:
(1) for two parseable URLs differing only in query string and/or
fragment, the first call (on a seen set not yet holding the key) returns
`true` and the second returns `false`; (2) for two URLs with the same
scheme and host but different paths (neither yet seen), both calls
return `true`; (3) an unparseable URL is reported not-new and leaves the
set untouched. The check-and-insert pair is a single transition of the
model, matching the mutex-guarded critical section of the source. -/
theorem C8_markSeen_normalization :
    (∀ (seen : List String) (u1 u2 : GoURL),
      u1.scheme = u2.scheme → u1.host = u2.host → u1.path = u2.path →
      normalizeKey u1 ∉ seen →
      (markSeen seen (some u1)).1 = true ∧
      (markSeen (markSeen seen (some u1)).2 (some u2)).1 = false) ∧
    (∀ (seen : List String) (u1 u2 : GoURL),
      u1.scheme = u2.scheme → u1.host = u2.host → u1.path ≠ u2.path →
      normalizeKey u1 ∉ seen → normalizeKey u2 ∉ seen →
      (markSeen seen (some u1)).1 = true ∧
      (markSeen (markSeen seen (some u1)).2 (some u2)).1 = true) ∧
    (∀ seen : List String, markSeen seen none = (false, seen)) := by
  refine ⟨?_, ?_, ?_⟩
  · intro seen u1 u2 hs hh hp hnew
    have hkey : normalizeKey u1 = normalizeKey u2 :=
      normalizeKey_ignores_query_fragment u1 u2 hs hh hp
    unfold markSeen
    dsimp only
    rw [if_neg hnew]
    refine ⟨rfl, ?_⟩
    dsimp only
    rw [if_pos (by rw [← hkey]; exact List.mem_cons_self _ _)]
  · intro seen u1 u2 hs hh hp hnew1 hnew2
    have hkey : normalizeKey u1 ≠ normalizeKey u2 :=
      normalizeKey_path_inj u1 u2 hs hh hp
    unfold markSeen
    dsimp only
    rw [if_neg hnew1]
    refine ⟨rfl, ?_⟩
    dsimp only
    rw [if_neg ?_]
    intro hmem
    rcases List.mem_cons.mp hmem with heq | hmem2
    · exact hkey heq.symm
    · exact hnew2 hmem2
  · intro seen
    rfl

/-- Witness for C8: `https://example.com/a?x=1` and
`https://example.com/a?y=2#frag` collapse to one key (second call is
`false`); `/a` versus `/b` are distinct keys (both calls `true`). -/
theorem C8_markSeen_normalization_witness :
    ((markSeen [] (some ⟨"https", "example.com", "/a", "x=1", ""⟩)).1 = true ∧
      (markSeen (markSeen [] (some ⟨"https", "example.com", "/a", "x=1", ""⟩)).2
        (some ⟨"https", "example.com", "/a", "y=2", "frag"⟩)).1 = false) ∧
    ((markSeen [] (some ⟨"https", "example.com", "/a", "x=1", ""⟩)).1 = true ∧
      (markSeen (markSeen [] (some ⟨"https", "example.com", "/a", "x=1", ""⟩)).2
        (some ⟨"https", "example.com", "/b", "", ""⟩)).1 = true) := by
  constructor
  · exact C8_markSeen_normalization.1 []
      ⟨"https", "example.com", "/a", "x=1", ""⟩
      ⟨"https", "example.com", "/a", "y=2", "frag"⟩
      rfl rfl rfl (by decide)
  · exact C8_markSeen_normalization.2.1 []
      ⟨"https", "example.com", "/a", "x=1", ""⟩
      ⟨"https", "example.com", "/b", "", ""⟩
      rfl rfl (by decide) (by decide) (by decide)

/-! ## Title extraction (`subdomain.extractTitle`)

`regexp.MustCompile`(?i)<title[^>]*>([^<]+)</title>`` compiled over the
(ASCII) body. Character classes exclude the very characters that
delimit them, so greedy matching is forced: the attribute run stops at
the first `>` and the group at the first `<`, and Go's leftmost-first
search reduces to scanning start positions left to right. Go byte
lengths and byte slicing coincide with character counts on the ASCII
bodies considered here. -/

/-- ASCII lower-casing, the case folding the `(?i)` flag performs on the
pattern's ASCII literals. -/
def lowerC (c : Char) : Char :=
  if 'A' ≤ c ∧ c ≤ 'Z' then Char.ofNat (c.toNat + 32) else c

/-- Consume a case-insensitive literal `p` from the head of `s`,
returning the remainder. -/
def dropCILit : List Char → List Char → Option (List Char)
  | [], s => some s
  | _ :: _, [] => none
  | p :: ps, c :: cs => if lowerC c = lowerC p then dropCILit ps cs else none

/-- Match `(?i)<title[^>]*>([^<]+)</title>` anchored at the head of `s`,
returning the group. -/
def matchTitleAt (s : List Char) : Option (List Char) :=
  match dropCILit "<title".data s with
  | none => none
  | some s1 =>
    match s1.dropWhile (fun c => c != '>') with
    | [] => none
    | _ :: s2 =>
      let content := s2.takeWhile (fun c => c != '<')
      if content.isEmpty then none
      else
        match dropCILit "</title>".data (s2.dropWhile (fun c => c != '<')) with
        | some _ => some content
        | none => none

/-- `re.FindStringSubmatch`: the leftmost match's group. -/
def findTitle : List Char → Option (List Char)
  | [] => none
  | s@(_ :: rest) =>
    match matchTitleAt s with
    | some g => some g
    | none => findTitle rest

/-- `extractTitle(body)`: group of the first match, trimmed, and when
longer than 100 characters cut to the first 100 with `"..."` appended. -/
def extractTitle (body : String) : String :=
  match findTitle body.data with
  | some g =>
    let title := trimSpace ⟨g⟩
    if title.data.length > 100 then (⟨title.data.take 100⟩ : String) ++ "..."
    else title
  | none => ""

/-- Specification-side reading of one regex match anchored at position
`i`: a case-insensitive `<title`, a run free of `>`, a `>`, a non-empty
group free of `<`, then `<` opening a case-insensitive `/title>`. -/
def TitleHere (t : List Char) (content : List Char) : Prop :=
  ∃ lit attrs close rest,
    t = lit ++ (attrs ++ ('>' :: (content ++ ('<' :: (close ++ rest))))) ∧
    lit.map lowerC = "<title".data.map lowerC ∧
    (∀ c ∈ attrs, (c != '>') = true) ∧
    content ≠ [] ∧
    (∀ c ∈ content, (c != '<') = true) ∧
    close.map lowerC = "/title>".data.map lowerC

def TitleMatchAt (s : List Char) (i : ℕ) (content : List Char) : Prop :=
  TitleHere (s.drop i) content

theorem dropCILit_append : ∀ (p t r : List Char),
    t.map lowerC = p.map lowerC → dropCILit p (t ++ r) = some r := by
  intro p
  induction p with
  | nil =>
    intro t r hm
    have : t = [] := by
      cases t with
      | nil => rfl
      | cons c cs => cases hm
    subst this
    rfl
  | cons p ps ih =>
    intro t r hm
    cases t with
    | nil => cases hm
    | cons c cs =>
      rw [List.map_cons, List.map_cons] at hm
      have h1 : lowerC c = lowerC p := (List.cons.injEq _ _ _ _).mp hm |>.1
      have h2 : cs.map lowerC = ps.map lowerC := (List.cons.injEq _ _ _ _).mp hm |>.2
      show dropCILit (p :: ps) (c :: (cs ++ r)) = some r
      unfold dropCILit
      rw [if_pos h1]
      exact ih cs r h2

theorem dropCILit_some : ∀ (p s r : List Char),
    dropCILit p s = some r →
      ∃ t, s = t ++ r ∧ t.map lowerC = p.map lowerC := by
  intro p
  induction p with
  | nil =>
    intro s r h
    cases h
    exact ⟨[], rfl, rfl⟩
  | cons p ps ih =>
    intro s r h
    cases s with
    | nil => cases h
    | cons c cs =>
      unfold dropCILit at h
      by_cases hc : lowerC c = lowerC p
      · rw [if_pos hc] at h
        obtain ⟨t, ht, hmt⟩ := ih cs r h
        exact ⟨c :: t, by rw [List.cons_append, ht],
          by rw [List.map_cons, List.map_cons, hc, hmt]⟩
      · rw [if_neg hc] at h
        cases h

theorem dropWhile_head_not (p : Char → Bool) :
    ∀ (l : List Char) (x : Char) (xs : List Char),
      l.dropWhile p = x :: xs → p x = false := by
  intro l
  induction l with
  | nil => intro x xs h; cases h
  | cons c cs ih =>
    intro x xs h
    cases hpc : p c with
    | true =>
      rw [List.dropWhile_cons, if_pos hpc] at h
      exact ih x xs h
    | false =>
      rw [List.dropWhile_cons, if_neg (by simp [hpc])] at h
      cases h
      exact hpc

theorem takeWhile_split (p : Char → Bool) :
    ∀ (a : List Char) (x : Char) (b : List Char),
      (∀ c ∈ a, p c = true) → p x = false →
      (a ++ x :: b).takeWhile p = a ∧ (a ++ x :: b).dropWhile p = x :: b := by
  intro a
  induction a with
  | nil =>
    intro x b _ hx
    constructor
    · rw [List.nil_append, List.takeWhile_cons, if_neg (by simp [hx])]
    · rw [List.nil_append, List.dropWhile_cons, if_neg (by simp [hx])]
  | cons c cs ih =>
    intro x b hall hx
    have hc := hall c (List.mem_cons_self c cs)
    obtain ⟨h1, h2⟩ := ih x b (fun d hd => hall d (List.mem_cons_of_mem c hd)) hx
    constructor
    · rw [List.cons_append, List.takeWhile_cons, if_pos hc, h1]
    · rw [List.cons_append, List.dropWhile_cons, if_pos hc, h2]

theorem matchTitleAt_complete (t content : List Char) (h : TitleHere t content) :
    matchTitleAt t = some content := by
  obtain ⟨lit, attrs, close, rest, heq, hlit, hattrs, hcne, hcontent, hclose⟩ := h
  subst heq
  unfold matchTitleAt
  rw [dropCILit_append "<title".data lit _ hlit]
  dsimp only
  obtain ⟨htw, hdw⟩ := takeWhile_split (fun c => c != '>') attrs '>'
    (content ++ ('<' :: (close ++ rest))) hattrs (by simp)
  rw [hdw]
  dsimp only
  obtain ⟨htw2, hdw2⟩ := takeWhile_split (fun c => c != '<') content '<'
    (close ++ rest) hcontent (by simp)
  rw [htw2, hdw2]
  rw [if_neg (by simpa using hcne)]
  have hcl : dropCILit "</title>".data ('<' :: (close ++ rest)) = some rest := by
    show dropCILit ('<' :: "/title>".data) ('<' :: (close ++ rest)) = some rest
    unfold dropCILit
    rw [if_pos rfl]
    exact dropCILit_append _ close rest hclose
  rw [hcl]

theorem matchTitleAt_sound (t content : List Char)
    (h : matchTitleAt t = some content) : TitleHere t content := by
  unfold matchTitleAt at h
  cases h1 : dropCILit "<title".data t with
  | none => rw [h1] at h; cases h
  | some s1 =>
    rw [h1] at h
    dsimp only at h
    cases h2 : s1.dropWhile (fun c => c != '>') with
    | nil => rw [h2] at h; cases h
    | cons x s2 =>
      rw [h2] at h
      dsimp only at h
      by_cases h3 : (s2.takeWhile (fun c => c != '<')).isEmpty = true
      · rw [if_pos h3] at h; cases h
      · rw [if_neg h3] at h
        cases h4 : dropCILit "</title>".data (s2.dropWhile (fun c => c != '<')) with
        | none => rw [h4] at h; cases h
        | some rest0 =>
          rw [h4] at h
          dsimp only at h
          cases h
          obtain ⟨lit, hteq, hlit⟩ := dropCILit_some _ _ _ h1
          obtain ⟨t1, hdweq, ht1⟩ := dropCILit_some _ _ _ h4
          have hx : x = '>' := by
            have := dropWhile_head_not (fun c => c != '>') s1 x s2 h2
            simpa using this
          cases t1 with
          | nil =>
            exfalso
            have := congrArg List.length ht1
            simp at this
          | cons c0 t1tail =>
            have hc0 : c0 = '<' := by
              have := dropWhile_head_not (fun c => c != '<') s2 c0 (t1tail ++ rest0)
                (by rw [hdweq, List.cons_append])
              simpa using this
            have hclose : t1tail.map lowerC = "/title>".data.map lowerC := by
              rw [List.map_cons] at ht1
              have ht1b := ht1.trans
                (show "</title>".data.map lowerC =
                  lowerC '<' :: "/title>".data.map lowerC from rfl)
              exact ((List.cons.injEq _ _ _ _).mp ht1b).2
            have hs1 : s1 = s1.takeWhile (fun c => c != '>') ++ ('>' :: s2) := by
              conv_lhs => rw [← List.takeWhile_append_dropWhile
                (p := fun c => c != '>') (l := s1)]
              rw [h2, hx]
            have hs2 : s2 = s2.takeWhile (fun c => c != '<') ++
                ('<' :: (t1tail ++ rest0)) := by
              conv_lhs => rw [← List.takeWhile_append_dropWhile
                (p := fun c => c != '<') (l := s2)]
              rw [hdweq, hc0, List.cons_append]
            rw [hs2] at hs1
            refine ⟨lit, s1.takeWhile (fun c => c != '>'), t1tail, rest0,
              ?_, hlit, ?_, ?_, ?_, hclose⟩
            · rw [hteq]
              conv_lhs => rw [hs1]
            · intro c hc
              have h5 := List.mem_takeWhile_imp hc
              exact h5
            · simpa using h3
            · intro c hc
              have h5 := List.mem_takeWhile_imp hc
              exact h5

theorem findTitle_of (content : List Char) :
    ∀ (i : ℕ) (s : List Char),
      (∀ j, j < i → matchTitleAt (s.drop j) = none) →
      matchTitleAt (s.drop i) = some content →
      findTitle s = some content := by
  intro i
  induction i with
  | zero =>
    intro s _ hm
    rw [List.drop_zero] at hm
    cases s with
    | nil =>
      rw [show matchTitleAt ([] : List Char) = none from rfl] at hm
      cases hm
    | cons c rest =>
      unfold findTitle
      rw [hm]
  | succ i ih =>
    intro s hnone hm
    cases s with
    | nil =>
      rw [show (([] : List Char).drop (i + 1)) = [] from by simp] at hm
      rw [show matchTitleAt ([] : List Char) = none from rfl] at hm
      cases hm
    | cons c rest =>
      have h0 : matchTitleAt (c :: rest) = none := by
        have := hnone 0 (Nat.succ_pos i)
        rwa [List.drop_zero] at this
      unfold findTitle
      rw [h0]
      dsimp only
      exact ih rest
        (fun j hj => by
          have := hnone (j + 1) (by omega)
          rwa [List.drop_succ_cons] at this)
        (by rwa [List.drop_succ_cons] at hm)

theorem findTitle_none :
    ∀ s : List Char, (∀ i, matchTitleAt (s.drop i) = none) → findTitle s = none := by
  intro s
  induction s with
  | nil => intro _; rfl
  | cons c rest ih =>
    intro h
    have h0 := h 0
    rw [List.drop_zero] at h0
    unfold findTitle
    rw [h0]
    dsimp only
    exact ih (fun i => by
      have := h (i + 1)
      rwa [List.drop_succ_cons] at this)

set_option maxRecDepth 8192 in
/-- **C5** (counterexample to the claim as stated). On a body whose
`<title>` content has 150 characters, the extracted title has 103
characters — the first 100 plus an appended `"..."` — not 100, so "is
truncated to 100 characters when longer" fails as stated. -/
theorem C5_extract_title_counterexample :
    (extractTitle
      ⟨"<title>".data ++ List.replicate 150 'a' ++ "</title>".data⟩).data.length = 103 ∧
    ¬ (extractTitle
      ⟨"<title>".data ++ List.replicate 150 'a' ++ "</title>".data⟩).data.length = 100 := by
  constructor <;> decide

/-- **C5** (amended). The extracted page title is the group of the first
(leftmost) case-insensitive `<title[^>]*>([^<]+)</title>` match,
whitespace-trimmed; when longer than 100 characters it is cut to its
first 100 characters with `"..."` appended; with no match the title is
empty. -/
theorem C5_extract_title :
    (∀ (body : String) (i : ℕ) (content : List Char),
      TitleMatchAt body.data i content →
      (∀ j, j < i → ∀ c, ¬ TitleMatchAt body.data j c) →
      extractTitle body =
        (if (trimSpace ⟨content⟩).data.length > 100
         then (⟨(trimSpace ⟨content⟩).data.take 100⟩ : String) ++ "..."
         else trimSpace ⟨content⟩)) ∧
    (∀ body : String, (∀ (i : ℕ) (c : List Char), ¬ TitleMatchAt body.data i c) →
      extractTitle body = "") := by
  constructor
  · intro body i content hmatch hfirst
    have hm : matchTitleAt (body.data.drop i) = some content :=
      matchTitleAt_complete _ _ hmatch
    have hnone : ∀ j, j < i → matchTitleAt (body.data.drop j) = none := by
      intro j hj
      cases hc : matchTitleAt (body.data.drop j) with
      | none => rfl
      | some c => exact absurd (matchTitleAt_sound _ _ hc) (hfirst j hj c)
    have hf : findTitle body.data = some content :=
      findTitle_of content i body.data hnone hm
    unfold extractTitle
    rw [hf]
  · intro body hno
    have hf : findTitle body.data = none := by
      apply findTitle_none
      intro i
      cases hc : matchTitleAt (body.data.drop i) with
      | none => rfl
      | some c => exact absurd (matchTitleAt_sound _ _ hc) (hno i c)
    unfold extractTitle
    rw [hf]

/-- Witness for C5 (amended): a mixed-case title tag with attributes and
surrounding whitespace extracts to its trimmed content, and a body with
no title match extracts to the empty string. -/
theorem C5_extract_title_witness :
    extractTitle "<TITLE a> My Page </title>more" = "My Page" ∧
    extractTitle "" = "" := by
  constructor
  · have h := C5_extract_title.1 "<TITLE a> My Page </title>more" 0 " My Page ".data
      ⟨"<TITLE".data, " a".data, "/title>".data, "more".data,
        by decide, by decide, by decide, by decide, by decide, by decide⟩
      (fun j hj => absurd hj (Nat.not_lt_zero j))
    exact h.trans (by decide)
  · refine C5_extract_title.2 "" ?_
    rintro i c ⟨lit, attrs, close, rest, heq, -, -, -, -, -⟩
    have hlen := congrArg List.length heq
    simp at hlen
    omega

end Plaus7
